import Mathlib

/-!
Verification of the LokaSync MQTT-driven log ingestion and upsert pipeline.

The definitions below are a shallow embedding of:
  * src/backend/src/externals/mqtts/subscribe.py  (on_message: retained check,
    JSON parse, identity validation, message normalization, handler table,
    dispatch to the upsert coroutine),
  * src/backend/src/services/log.py               (LogService.upsert_log_from_mqtt:
    building the seven-field filter query),
  * src/backend/src/repositories/log.py           (LogRepository.upsert_log:
    find-or-create against the MongoDB logs collection),
  * src/backend/src/enums/log.py                  (LogStatus string values).

MongoDB documents are modelled as association lists of field name / value
pairs; the store is the list of documents in the logs collection, in
insertion order.  find_one returns the first matching document, update_one
applies a set-only partial overwrite to the first matching document, and
insert_one appends.  Server datetimes are abstract ticks (Nat) and ObjectIds
are abstract Nats.  Python exceptions inside the decoder (AttributeError on
a non-string message value or a non-object data value) are modelled as
rejection, matching the enclosing try/except of on_message.
-/

namespace LokaSync

/-- Scalar JSON values as produced by json.loads for a payload field. -/
inductive Prim where
  | null
  | bool (b : Bool)
  | str (s : String)
  | num (n : Int)
deriving DecidableEq

/-- A JSON value appearing as a top-level field of the inbound payload
object: either a scalar or a (one-level) nested object such as the
payload's data field. -/
inductive JVal where
  | prim (q : Prim)
  | obj (fs : List (String × Prim))
deriving DecidableEq

/-- The parsed inbound JSON payload object (log_data in subscribe.py). -/
abbrev Payload := List (String × JVal)

/-- A value stored in a MongoDB log document: a value copied from the
payload, a server datetime (abstract tick), or a store-assigned ObjectId. -/
inductive DVal where
  | jv (v : JVal)
  | time (t : Nat)
  | oid (n : Nat)
deriving DecidableEq

/-- The stored null value (Python None / BSON null). -/
def DVal.null : DVal := DVal.jv (JVal.prim Prim.null)

/-- A stored string value. -/
def DVal.str (s : String) : DVal := DVal.jv (JVal.prim (Prim.str s))

/-- A MongoDB document: field name / value pairs in field order. -/
abbrev Doc := List (String × DVal)

/-- The logs collection, in insertion order. -/
abbrev Store := List Doc

/-- Field read on a document (first binding; documents built by this
pipeline have distinct keys). -/
def dget : Doc → String → Option DVal
  | [], _ => none
  | (k, v) :: rest, f => if k = f then some v else dget rest f

/-- Field write on a document: replace the binding in place if the key is
present (Python dict assignment / MongoDB dollar-set on one field),
otherwise append the new field. -/
def dset : Doc → String → DVal → Doc
  | [], f, w => [(f, w)]
  | (k, v) :: rest, f, w => if k = f then (k, w) :: rest else (k, v) :: dset rest f w

/-- Apply a whole field set left to right (dict merge / dollar-set). -/
def dsetAll (d : Doc) (u : Doc) : Doc :=
  u.foldl (fun acc kv => dset acc kv.1 kv.2) d

/-- The field names of a document. -/
def dkeys (d : Doc) : List String := d.map Prod.fst

/-- The value a field-set assigns to a key, the last binding winning
(Python dict literal / repeated assignment semantics). -/
def dgetLast : Doc → String → Option DVal
  | [], _ => none
  | (k, v) :: rest, f =>
      match dgetLast rest f with
      | some w => some w
      | none => if k = f then some v else none

/-- MongoDB equality filter: every filter field must be present with the
given value. -/
def matchesFilter (d : Doc) (q : Doc) : Bool :=
  q.all (fun kv => decide (dget d kv.1 = some kv.2))

/-- collection.find_one: first document matching the filter. -/
def find_one : Store → Doc → Option Doc
  | [], _ => none
  | d :: rest, q => if matchesFilter d q then some d else find_one rest q

/-- collection.update_one with a dollar-set update: set-only partial
overwrite of the first matching document. -/
def update_one : Store → Doc → Doc → Store
  | [], _, _ => []
  | d :: rest, q, u =>
      if matchesFilter d q then dsetAll d u :: rest
      else d :: update_one rest q u

/-- collection.insert_one: append the document. -/
def insert_one (s : Store) (d : Doc) : Store := s ++ [d]

/-- How many documents match a filter (for the uniqueness invariant). -/
def countMatching : Store → Doc → Nat
  | [], _ => 0
  | d :: rest, q => (if matchesFilter d q then 1 else 0) + countMatching rest q

/-! ### LogRepository.upsert_log (repositories/log.py) -/

/-- The optional QoS progress fields listed in LogRepository.upsert_log. -/
def optional_fields : List String :=
  ["download_started_at", "firmware_size_kb", "bytes_written",
   "download_duration_sec", "download_speed_kbps",
   "download_completed_at", "flash_completed_at"]

/-- The pattern `if field not in insert_data: insert_data[field] = value`
used three times by the not-found branch. -/
def condSet (d : Doc) (f : String) (w : DVal) : Doc :=
  if (dget d f).isSome then d else dset d f w

/-- The loop `for field in optional_fields: if field not in insert_data:
insert_data[field] = None`. -/
def padLoop : Doc → List String → Doc
  | d, [] => d
  | d, f :: rest => padLoop (condSet d f DVal.null) rest

/-- The new-document construction of the not-found branch: merge of the
filter query and the update fields, explicit nulls for absent progress
fields, default flash_status and created_at when absent (in that order in
the source). -/
def seedDoc (filter_query update_fields : Doc) (now_repo : Nat) : Doc :=
  condSet
    (condSet (padLoop (dsetAll filter_query update_fields) optional_fields)
      "flash_status" (DVal.str "in progress"))
    "created_at" (DVal.time now_repo)

/-- The document inserted (and returned) by the not-found branch; it
carries the store-assigned surrogate id, as the source sets
insert_data underscore-id from result.inserted_id and returns
LogModel(**insert_data), so the stored and returned documents coincide. -/
def insertedDoc (filter_query update_fields : Doc) (now_repo new_id : Nat) : Doc :=
  dset (seedDoc filter_query update_fields now_repo) "_id" (DVal.oid new_id)

/-! #### LogModel validation (models/log.py, utils/validator.py)

Both return paths of LogRepository.upsert_log construct
`LogModel(**document)`; pydantic validates the document and a
ValidationError lands in the enclosing except, which returns None -- after
the write has already happened. -/

/-- The character class of validate_input's regex `[a-zA-Z0-9_-]`. -/
def allowedInputChar (c : Char) : Bool :=
  c.isAlpha || c.isDigit || c == '_' || c == '-'

/-- utils/validator.validate_input (applied by LogModel's field_validator
to node_location, node_type and node_id): no space, `re.match` of
`[a-zA-Z0-9_-]+` up to the end (Python's end anchor also accepts a single
trailing newline), and no consecutive hyphens.  True when the value
passes, false when it raises. -/
def validate_input (s : String) : Bool :=
  !(decide (" ".data <:+: s.data)) &&
  (let core := match s.data.getLast? with
               | some c => if c = '\n' then s.data.dropLast else s.data
               | none => s.data
   !core.isEmpty && core.all allowedInputChar) &&
  !(decide ("--".data <:+: s.data)) && !(decide ("- -".data <:+: s.data)) &&
  !(decide ("-  -".data <:+: s.data))

/-- Split a character list at every dot. -/
def splitOnDot : List Char → List (List Char)
  | [] => [[]]
  | c :: rest =>
      let r := splitOnDot rest
      if c = '.' then [] :: r
      else
        match r with
        | [] => [[c]]
        | h :: t => (c :: h) :: t

/-- The firmware_version pattern of LogModel: digits dot digits dot
digits, nothing else (ASCII digits; the pipeline's version strings are
ASCII). -/
def semverPattern (s : String) : Bool :=
  match splitOnDot s.data with
  | [a, b, c] =>
      !a.isEmpty && a.all Char.isDigit && !b.isEmpty && b.all Char.isDigit &&
      !c.isEmpty && c.all Char.isDigit
  | _ => false

/-- A required str field with a minimum and optional maximum length;
pydantic v2 does not coerce non-string JSON values to str, so any other
payload value fails. -/
def validRequiredStr (d : Doc) (k : String) (minLen : Nat)
    (maxLen : Option Nat) : Bool :=
  match dget d k with
  | some (DVal.jv (JVal.prim (Prim.str s))) =>
      decide (minLen ≤ s.length) &&
      (match maxLen with
       | some m => decide (s.length ≤ m)
       | none => true)
  | _ => false

/-- A required str field that additionally runs validate_input. -/
def validInputStrField (d : Doc) (k : String) (minLen maxLen : Nat) : Bool :=
  match dget d k with
  | some (DVal.jv (JVal.prim (Prim.str s))) =>
      decide (minLen ≤ s.length) && decide (s.length ≤ maxLen) &&
      validate_input s
  | _ => false

/-- The firmware_version field: pattern plus length 5..20. -/
def validVersionField (d : Doc) : Bool :=
  match dget d "firmware_version" with
  | some (DVal.jv (JVal.prim (Prim.str s))) =>
      semverPattern s && decide (5 ≤ s.length) && decide (s.length ≤ 20)
  | _ => false

/-- An Optional[datetime] progress field: absent or None default to None;
the pipeline only ever stores server datetimes here, and any other
payload-derived value fails validation. -/
def validOptTime (d : Doc) (k : String) : Bool :=
  match dget d k with
  | none => true
  | some (DVal.jv (JVal.prim Prim.null)) => true
  | some (DVal.time _) => true
  | _ => false

/-- An Optional numeric (float/int) progress field: absent, None or a
JSON number; booleans and non-numeric values fail pydantic validation
(numeric strings, which lax mode would coerce, never reach these fields
from this pipeline's decoder as recognized non-null values are copied
verbatim, and are modelled as failing). -/
def validOptNum (d : Doc) (k : String) : Bool :=
  match dget d k with
  | none => true
  | some (DVal.jv (JVal.prim Prim.null)) => true
  | some (DVal.jv (JVal.prim (Prim.num _))) => true
  | _ => false

/-- The Optional[LogStatus] field: absent, None, or one of the three enum
values of enums/log.py. -/
def validFlashStatus (d : Doc) : Bool :=
  match dget d "flash_status" with
  | none => true
  | some (DVal.jv (JVal.prim Prim.null)) => true
  | some (DVal.jv (JVal.prim (Prim.str s))) =>
      s == "success" || s == "failed" || s == "in progress"
  | _ => false

/-- The created_at field: absent is supplied by the default factory (the
current server time); the pipeline always stores a server datetime here. -/
def validCreatedAt (d : Doc) : Bool :=
  match dget d "created_at" with
  | none => true
  | some (DVal.time _) => true
  | _ => false

/-- Modelled from the spec: the PyObjectId type of models/common.py is not
under src (only its importers are); the spec says the store assigns the
surrogate id and treats it as incidental (sections 3 and 4.4), so a
store-assigned ObjectId validates.  No other value ever reaches the id
field of a document this pipeline writes. -/
def validObjectId (d : Doc) : Bool :=
  match dget d "_id" with
  | some (DVal.oid _) => true
  | _ => false

/-- LogModel(**document): the pydantic validation run by both return
paths of LogRepository.upsert_log.  True when construction succeeds,
false when it raises ValidationError. -/
def validLogModel (d : Doc) : Bool :=
  validObjectId d && validCreatedAt d &&
  validRequiredStr d "session_id" 1 (some 255) &&
  validRequiredStr d "node_mac" 12 none &&
  validInputStrField d "node_location" 3 255 &&
  validInputStrField d "node_type" 3 255 &&
  validInputStrField d "node_id" 1 255 &&
  validRequiredStr d "node_codename" 3 (some 255) &&
  validVersionField d &&
  validOptTime d "download_started_at" &&
  validOptNum d "firmware_size_kb" &&
  validOptNum d "bytes_written" &&
  validOptNum d "download_duration_sec" &&
  validOptNum d "download_speed_kbps" &&
  validOptTime d "download_completed_at" &&
  validOptTime d "flash_completed_at" &&
  validFlashStatus d

/-- models the repository's `LogModel(**doc) if doc else None` /
`return LogModel(**insert_data)` endings: None stays None, and a document
is returned exactly when it validates -- a ValidationError is caught by
the enclosing except, which returns None. -/
def logModelOf : Option Doc → Option Doc
  | some d => if validLogModel d then some d else none
  | none => none

/-- LogRepository.upsert_log: find-or-create on the filter query; both
branches return the (re-)read record as a validated LogModel, or None
when the read misses or validation raises.  On the insert branch the
write has already happened when validation runs. -/
def upsert_log (s : Store) (filter_query update_fields : Doc)
    (now_repo : Nat) (new_id : Nat) : Store × Option Doc :=
  match find_one s filter_query with
  | some _ =>
      let s1 := update_one s filter_query update_fields
      (s1, logModelOf (find_one s1 filter_query))
  | none =>
      let d := insertedDoc filter_query update_fields now_repo new_id
      (insert_one s d, logModelOf (some d))

/-! ### Message decoder (subscribe.py on_message, up to the dispatch) -/

/-- The seven required identity fields, in validation order. -/
def required_fields : List String :=
  ["session_id", "node_mac", "node_location", "node_type",
   "node_id", "node_codename", "firmware_version"]

/-- Python truthiness of a payload value (`if not value`). -/
def truthy : JVal → Bool
  | .prim .null => false
  | .prim (.bool b) => b
  | .prim (.str s) => decide (s ≠ "")
  | .prim (.num n) => decide (n ≠ 0)
  | .obj fs => decide (fs ≠ [])

/-- dict.get on the payload; Python json.loads keeps the last duplicate
key, hence the right-biased fold. -/
def pget (p : Payload) (f : String) : Option JVal :=
  p.foldl (fun acc kv => if kv.1 = f then some kv.2 else acc) none

/-- The identity-validation loop: each required field must be present and
truthy, else the whole message is rejected. -/
def extractLoop (p : Payload) : List String → Option (List (String × JVal))
  | [] => some []
  | f :: rest =>
      match pget p f with
      | none => none
      | some v =>
          if truthy v then
            match extractLoop p rest with
            | none => none
            | some l => some ((f, v) :: l)
          else none

/-- extracted_data after the validation loop. -/
def extractIdentity (p : Payload) : Option (List (String × JVal)) :=
  extractLoop p required_fields

/-- The whitespace str.strip() removes: the characters for which Python's
str.isspace() holds -- ASCII whitespace including the vertical tab and the
file/group/record/unit separators x1c-x1f, next-line x85, no-break space
xa0, ogham space mark, the u2000-u200a spaces, line and paragraph
separators, narrow no-break space, medium mathematical space and the
ideographic space. -/
def pyIsSpace (c : Char) : Bool :=
  c = ' ' ∨ c = '\t' ∨ c = '\n' ∨ c = '\r' ∨ c = '\x0b' ∨ c = '\x0c' ∨
  c = '\x1c' ∨ c = '\x1d' ∨ c = '\x1e' ∨ c = '\x1f' ∨ c = '\x85' ∨ c = '\xa0' ∨
  c = '\u1680' ∨ ('\u2000' ≤ c ∧ c ≤ '\u200a') ∨ c = '\u2028' ∨ c = '\u2029' ∨
  c = '\u202f' ∨ c = '\u205f' ∨ c = '\u3000'

/-- str.lower() on one character, decision-faithfully against the
all-ASCII handler table: the only characters whose Python lowercase is an
ASCII character are A-Z and the Kelvin sign u212a (which lowers to k), and
these are mapped exactly; every other character is left unchanged, which
can differ from Python only on characters whose Python lowercase is again
non-ASCII, so a normalized message equals one of the (pure-ASCII) handler
keys in this model exactly when it does in Python. -/
def pyLowerChar (c : Char) : Char :=
  if 'A' ≤ c ∧ c ≤ 'Z' then Char.ofNat (c.toNat + 32)
  else if c = '\u212a' then 'k'
  else c

/-- str.strip().lower() on the free-text message. -/
def pyNormalize (s : String) : String :=
  String.mk ((((s.data.dropWhile pyIsSpace).reverse.dropWhile pyIsSpace).reverse).map pyLowerChar)

/-- log_data.get("message", "").strip().lower(); none models the
AttributeError raised when the message value is not a string, which the
enclosing try/except turns into a rejection. -/
def normalizeMessage (p : Payload) : Option String :=
  match pget p "message" with
  | none => some (pyNormalize "")
  | some (.prim (.str s)) => some (pyNormalize s)
  | some _ => none

/-- Lookup in the (one-level) data object. -/
def objGet (fs : List (String × Prim)) (key : String) : Option Prim :=
  fs.foldl (fun acc kv => if kv.1 = key then some kv.2 else acc) none

/-- log_data.get("data", empty-dict).get(key): some none when the key is
absent (Python None), none when the data value is present but not an
object (AttributeError, hence rejection). -/
def dataGet (p : Payload) (key : String) : Option (Option Prim) :=
  match pget p "data" with
  | none => some none
  | some (.obj fs) => some (objGet fs key)
  | some (.prim _) => none

/-- A nested numeric payload value copied into the update fields; Python
None becomes a stored null. -/
def primToDVal : Option Prim → DVal
  | none => DVal.null
  | some q => DVal.jv (JVal.prim q)

/-- The message_handlers table of subscribe.py, parameterized by the
server decode time and the four nested data values. -/
def message_handlers (now : Nat) (szk byt sec spd : Option Prim) :
    List (String × Doc) :=
  [("ota update started",
      [("download_started_at", DVal.time now),
       ("flash_status", DVal.str "in progress")]),
   ("firmware size ok", [("firmware_size_kb", primToDVal szk)]),
   ("firmware bytes written", [("bytes_written", primToDVal byt)]),
   ("download time (s)", [("download_duration_sec", primToDVal sec)]),
   ("download speed (kb/s)", [("download_speed_kbps", primToDVal spd)]),
   ("download complete", [("download_completed_at", DVal.time now)]),
   ("ota update complete",
      [("flash_completed_at", DVal.time now),
       ("flash_status", DVal.str "success")])]

/-- `if message in message_handlers` membership plus the table read. -/
def lookupHandler : List (String × Doc) → String → Option Doc
  | [], _ => none
  | (k, u) :: rest, msg => if k = msg then some u else lookupHandler rest msg

/-- The decoder run on the transport thread: identity validation, message
normalization, eager handler-table construction (whose data reads can
raise), and the membership test.  none is any rejection: a missing or
falsy identity field, a non-string message value, a non-object data value,
or an unrecognized message text. -/
def decode (p : Payload) (now : Nat) :
    Option (List (String × JVal) × Doc) :=
  match extractIdentity p with
  | none => none
  | some ident =>
    match normalizeMessage p with
    | none => none
    | some msg =>
      match dataGet p "size_kb", dataGet p "bytes",
            dataGet p "seconds", dataGet p "speed_kbps" with
      | some szk, some byt, some sec, some spd =>
          match lookupHandler (message_handlers now szk byt sec spd) msg with
          | some u => some (ident, u)
          | none => none
      | _, _, _, _ => none

/-- LogService.upsert_log_from_mqtt builds the filter query from the
extracted identity values, in the canonical field order. -/
def filterQueryOf (ident : List (String × JVal)) : Doc :=
  ident.map (fun kv => (kv.1, DVal.jv kv.2))

/-- A raw inbound MQTT payload: malformed JSON (json.loads raises), a
well-formed non-object JSON value (log_data.get raises), or an object. -/
inductive RawMsg where
  | malformed
  | nonObject
  | obj (p : Payload)
deriving DecidableEq

/-- One on_message invocation: retained-flag check, parse, decode,
dispatch to the upsert engine.  Returns the store after the message and
the validated LogModel record handed to the outbound notifier (none on
any rejection, store failure, or LogModel validation failure: nothing is
published then). -/
def on_message (s : Store) (retained : Bool) (raw : RawMsg)
    (now_decode now_repo : Nat) (new_id : Nat) : Store × Option Doc :=
  if retained then (s, none)
  else
    match raw with
    | .malformed => (s, none)
    | .nonObject => (s, none)
    | .obj p =>
      match decode p now_decode with
      | none => (s, none)
      | some (ident, u) => upsert_log s (filterQueryOf ident) u now_repo new_id

/-- One inbound message together with its per-invocation environment:
retained flag, raw payload, server decode time, repository insert time,
and the ObjectId the store would assign on insert. -/
structure Msg where
  retained : Bool
  raw : RawMsg
  nowD : Nat
  nowR : Nat
  newId : Nat
deriving DecidableEq

/-- The store after one message. -/
def stepMsg (s : Store) (m : Msg) : Store :=
  (on_message s m.retained m.raw m.nowD m.nowR m.newId).1

/-- Sequential processing of a message list. -/
def processMsgs : Store → List Msg → Store
  | s, [] => s
  | s, m :: ms => processMsgs (stepMsg s m) ms

/-! ### Basic document lemmas -/

theorem dget_dset (d : Doc) (k f : String) (v : DVal) :
    dget (dset d k v) f = if k = f then some v else dget d f := by
  induction d with
  | nil => by_cases h : k = f <;> simp [dset, dget, h]
  | cons kv rest ih =>
    obtain ⟨k1, w⟩ := kv
    by_cases h1 : k1 = k
    · subst h1
      by_cases h2 : k1 = f <;> simp [dset, dget, h2]
    · by_cases h2 : k1 = f
      · have hkf : ¬ k = f := fun hh => h1 (h2.trans hh.symm)
        have hfk : ¬ f = k := fun hh => hkf hh.symm
        simp [dset, dget, h1, h2, hkf, hfk]
      · simp [dset, dget, h1, h2, ih]

theorem dsetAll_cons (d : Doc) (k : String) (v : DVal) (u : Doc) :
    dsetAll d ((k, v) :: u) = dsetAll (dset d k v) u := by
  simp [dsetAll]

theorem dget_dsetAll (u : Doc) : ∀ (d : Doc) (f : String),
    dget (dsetAll d u) f =
      match dgetLast u f with
      | some v => some v
      | none => dget d f := by
  induction u with
  | nil => intro d f; simp [dsetAll, dgetLast]
  | cons kv u1 ih =>
    intro d f
    obtain ⟨k, v⟩ := kv
    rw [dsetAll_cons, ih]
    cases hL : dgetLast u1 f with
    | some w => simp [dgetLast, hL]
    | none =>
      by_cases hkf : k = f <;> simp [dgetLast, hL, dget_dset, hkf]

theorem dset_self (d : Doc) (k : String) (v : DVal) (h : dget d k = some v) :
    dset d k v = d := by
  induction d with
  | nil => simp [dget] at h
  | cons kv rest ih =>
    obtain ⟨k1, w⟩ := kv
    by_cases h1 : k1 = k
    · subst h1
      simp [dget] at h
      simp [dset, h]
    · simp [dget, h1] at h
      simp [dset, h1, ih h]

theorem dsetAll_self (u : Doc) :
    ∀ d : Doc, (∀ kv ∈ u, dget d kv.1 = some kv.2) → dsetAll d u = d := by
  induction u with
  | nil => intro d _; simp [dsetAll]
  | cons kv u1 ih =>
    intro d h
    obtain ⟨k, v⟩ := kv
    rw [dsetAll_cons, dset_self d k v (h (k, v) (List.mem_cons_self _ _))]
    exact ih d (fun kv hkv => h kv (List.mem_cons_of_mem _ hkv))

theorem matchesFilter_iff (d q : Doc) :
    matchesFilter d q = true ↔ ∀ kv ∈ q, dget d kv.1 = some kv.2 := by
  simp [matchesFilter, List.all_eq_true]

theorem dkeys_cons (k : String) (v : DVal) (d : Doc) :
    dkeys ((k, v) :: d) = k :: dkeys d := rfl

theorem dgetLast_mem (u : Doc) (k : String) (v : DVal)
    (h : dgetLast u k = some v) : (k, v) ∈ u := by
  induction u with
  | nil => simp [dgetLast] at h
  | cons kv u1 ih =>
    obtain ⟨k1, w⟩ := kv
    simp only [dgetLast] at h
    cases hL : dgetLast u1 k with
    | some w1 =>
      simp only [hL] at h
      injection h with h
      subst h
      exact List.mem_cons_of_mem _ (ih hL)
    | none =>
      simp only [hL] at h
      by_cases h1 : k1 = k
      · subst h1
        simp only [if_pos rfl] at h
        cases h
        exact List.mem_cons_self _ _
      · simp [h1] at h

theorem dgetLast_eq_none (u : Doc) (k : String) (h : k ∉ dkeys u) :
    dgetLast u k = none := by
  induction u with
  | nil => simp [dgetLast]
  | cons kv u1 ih =>
    obtain ⟨k1, w⟩ := kv
    rw [dkeys_cons] at h
    have h1 : ¬ k1 = k := fun hh => h (by rw [hh]; exact List.mem_cons_self _ _)
    have h2 : k ∉ dkeys u1 := fun hh => h (List.mem_cons_of_mem _ hh)
    simp [dgetLast, ih h2, h1]

theorem dget_eq_none (d : Doc) (k : String) (h : k ∉ dkeys d) :
    dget d k = none := by
  induction d with
  | nil => simp [dget]
  | cons kv d1 ih =>
    obtain ⟨k1, w⟩ := kv
    rw [dkeys_cons] at h
    have h1 : ¬ k1 = k := fun hh => h (by rw [hh]; exact List.mem_cons_self _ _)
    have h2 : k ∉ dkeys d1 := fun hh => h (List.mem_cons_of_mem _ hh)
    simp [dget, ih h2, h1]

theorem dget_isSome_mem (d : Doc) (k : String) (h : (dget d k).isSome) :
    k ∈ dkeys d := by
  by_contra hk
  rw [dget_eq_none d k hk] at h
  simp at h

theorem dget_mem_nodup (d : Doc) (k : String) (v : DVal)
    (hnd : (dkeys d).Nodup) (h : (k, v) ∈ d) : dget d k = some v := by
  induction d with
  | nil => simp at h
  | cons kv d1 ih =>
    obtain ⟨k1, w⟩ := kv
    rw [dkeys_cons, List.nodup_cons] at hnd
    rcases List.mem_cons.mp h with heq | hmem
    · rw [Prod.mk.injEq] at heq
      simp [dget, heq.1.symm, heq.2]
    · have hk1 : ¬ k1 = k := by
        intro hh
        subst hh
        exact hnd.1 (List.mem_map.mpr ⟨(k1, v), hmem, rfl⟩)
      simp [dget, hk1, ih hnd.2 hmem]

theorem dgetLast_mem_nodup (u : Doc) (k : String) (v : DVal)
    (hnd : (dkeys u).Nodup) (h : (k, v) ∈ u) : dgetLast u k = some v := by
  induction u with
  | nil => simp at h
  | cons kv u1 ih =>
    obtain ⟨k1, w⟩ := kv
    rw [dkeys_cons, List.nodup_cons] at hnd
    rcases List.mem_cons.mp h with heq | hmem
    · rw [Prod.mk.injEq] at heq
      obtain ⟨h1, h2⟩ := heq
      subst h1
      simp [dgetLast, dgetLast_eq_none u1 k hnd.1, h2]
    · simp [dgetLast, ih hnd.2 hmem]

/-! ### Lemmas about the new-document construction -/

theorem dget_condSet_of_some (d : Doc) (f k : String) (w v : DVal)
    (h : dget d k = some v) :
    dget (condSet d f w) k = some v := by
  unfold condSet
  split
  · exact h
  · have hfk : ¬ f = k := by
      intro hh
      subst hh
      simp [h] at *
    rw [dget_dset, if_neg hfk]
    exact h

theorem dget_condSet_other (d : Doc) (f k : String) (w : DVal) (hk : ¬ f = k) :
    dget (condSet d f w) k = dget d k := by
  unfold condSet
  split
  · rfl
  · rw [dget_dset, if_neg hk]

theorem dget_condSet_none (d : Doc) (f : String) (w : DVal)
    (h : dget d f = none) :
    dget (condSet d f w) f = some w := by
  unfold condSet
  rw [h]
  simp only [Option.isSome_none, Bool.false_eq_true, if_false]
  rw [dget_dset, if_pos rfl]

theorem dget_padLoop_of_some (fs : List String) :
    ∀ (d : Doc) (k : String) (v : DVal), dget d k = some v →
      dget (padLoop d fs) k = some v := by
  induction fs with
  | nil => intro d k v h; simpa [padLoop] using h
  | cons f fs1 ih =>
    intro d k v h
    simp only [padLoop]
    exact ih _ k v (dget_condSet_of_some d f k DVal.null v h)

theorem dget_padLoop_not_mem (fs : List String) :
    ∀ (d : Doc) (k : String), k ∉ fs →
      dget (padLoop d fs) k = dget d k := by
  induction fs with
  | nil => intro d k _; simp [padLoop]
  | cons f fs1 ih =>
    intro d k hk
    have hfk : ¬ f = k := fun hh => hk (by rw [hh]; exact List.mem_cons_self _ _)
    have hk1 : k ∉ fs1 := fun hh => hk (List.mem_cons_of_mem _ hh)
    simp only [padLoop]
    rw [ih _ k hk1, dget_condSet_other d f k DVal.null hfk]

theorem dget_padLoop_null (fs : List String) :
    ∀ (d : Doc) (k : String), fs.Nodup → k ∈ fs → dget d k = none →
      dget (padLoop d fs) k = some DVal.null := by
  induction fs with
  | nil => intro d k _ hk _; simp at hk
  | cons f fs1 ih =>
    intro d k hnd hk h
    rw [List.nodup_cons] at hnd
    simp only [padLoop]
    by_cases hfk : f = k
    · subst hfk
      exact dget_padLoop_of_some fs1 _ f DVal.null (dget_condSet_none d f DVal.null h)
    · have hk1 : k ∈ fs1 := by
        rcases List.mem_cons.mp hk with heq | hmem
        · exact absurd heq.symm hfk
        · exact hmem
      refine ih _ k hnd.2 hk1 ?_
      rw [dget_condSet_other d f k DVal.null hfk]
      exact h

/-! ### Store-level lemmas (find_one, update_one, insert, counting) -/

theorem find_one_some_matches (s : Store) (q : Doc) (r : Doc)
    (h : find_one s q = some r) : matchesFilter r q = true := by
  induction s with
  | nil => simp [find_one] at h
  | cons d rest ih =>
    simp only [find_one] at h
    split at h
    · cases h
      assumption
    · exact ih h

theorem find_one_append_one (s : Store) (q : Doc) (d : Doc) :
    find_one (s ++ [d]) q =
      match find_one s q with
      | some r => some r
      | none => if matchesFilter d q then some d else none := by
  induction s with
  | nil => simp [find_one]
  | cons d1 rest ih =>
    simp only [List.cons_append, find_one]
    split
    · rfl
    · exact ih

theorem find_one_update_one (s : Store) (q u : Doc) (r : Doc)
    (hfind : find_one s q = some r)
    (hmat : matchesFilter (dsetAll r u) q = true) :
    find_one (update_one s q u) q = some (dsetAll r u) := by
  induction s with
  | nil => simp [find_one] at hfind
  | cons d rest ih =>
    simp only [find_one] at hfind
    by_cases hd : matchesFilter d q = true
    · rw [if_pos hd] at hfind
      cases hfind
      simp [update_one, hd, find_one, hmat]
    · rw [if_neg hd] at hfind
      simp only [update_one, find_one, hd, Bool.false_eq_true, if_false]
      exact ih hfind

theorem update_one_self (s : Store) (q u : Doc)
    (h : ∀ r, find_one s q = some r → dsetAll r u = r) :
    update_one s q u = s := by
  induction s with
  | nil => simp [update_one]
  | cons d rest ih =>
    simp only [update_one]
    by_cases hd : matchesFilter d q = true
    · rw [if_pos hd]
      rw [h d (by simp [find_one, hd])]
    · rw [if_neg hd]
      refine congrArg _ (ih fun r hr => h r ?_)
      simp [find_one, hd, hr]

theorem find_one_update_one_other (s : Store) (q1 q2 u : Doc)
    (h : ∀ d, matchesFilter d q2 = true →
      matchesFilter d q1 = false ∧ matchesFilter (dsetAll d u) q1 = false) :
    find_one (update_one s q2 u) q1 = find_one s q1 := by
  induction s with
  | nil => simp [update_one]
  | cons d rest ih =>
    simp only [update_one]
    by_cases hd : matchesFilter d q2 = true
    · rw [if_pos hd]
      simp only [find_one, (h d hd).1, (h d hd).2, Bool.false_eq_true, if_false]
    · rw [if_neg hd]
      simp only [find_one]
      split
      · rfl
      · exact ih

theorem find_one_update_one_frame (s : Store) (q1 q2 u : Doc) (r : Doc)
    (hfind : find_one s q1 = some r)
    (hpres : ∀ d, matchesFilter (dsetAll d u) q1 = matchesFilter d q1) :
    find_one (update_one s q2 u) q1 = some r ∨
    find_one (update_one s q2 u) q1 = some (dsetAll r u) := by
  induction s with
  | nil => simp [find_one] at hfind
  | cons d rest ih =>
    simp only [find_one] at hfind
    simp only [update_one]
    by_cases hd2 : matchesFilter d q2 = true
    · rw [if_pos hd2]
      by_cases hd1 : matchesFilter d q1 = true
      · rw [if_pos hd1] at hfind
        cases hfind
        right
        have hm : matchesFilter (dsetAll r u) q1 = true := by rw [hpres r]; exact hd1
        simp [find_one, hm]
      · rw [if_neg hd1] at hfind
        left
        have hm : ¬ matchesFilter (dsetAll d u) q1 = true := by rw [hpres d]; exact hd1
        simp only [find_one, if_neg hm]
        exact hfind
    · rw [if_neg hd2]
      simp only [find_one]
      by_cases hd1 : matchesFilter d q1 = true
      · rw [if_pos hd1] at hfind ⊢
        exact Or.inl hfind
      · rw [if_neg hd1] at hfind ⊢
        exact ih hfind

theorem find_one_eq_none_count (s : Store) (q : Doc)
    (h : find_one s q = none) : countMatching s q = 0 := by
  induction s with
  | nil => simp [countMatching]
  | cons d rest ih =>
    simp only [find_one] at h
    split at h
    · cases h
    · simp only [countMatching]
      rename_i hd
      simp only [if_neg hd, ih h, Nat.add_zero]

theorem countMatching_append_one (s : Store) (q : Doc) (d : Doc) :
    countMatching (s ++ [d]) q =
      countMatching s q + (if matchesFilter d q then 1 else 0) := by
  induction s with
  | nil => simp [countMatching]
  | cons d1 rest ih =>
    rw [List.cons_append]
    simp only [countMatching]
    rw [ih]
    omega

theorem countMatching_update_one (s : Store) (q2 u q : Doc)
    (hpres : ∀ d, matchesFilter (dsetAll d u) q = matchesFilter d q) :
    countMatching (update_one s q2 u) q = countMatching s q := by
  induction s with
  | nil => simp [update_one]
  | cons d rest ih =>
    simp only [update_one]
    split
    · simp only [countMatching, hpres d]
    · simp only [countMatching, ih]

/-! ### Decoder lemmas -/

/-- Whether a payload field passes the validation loop: present and truthy. -/
def truthyField (p : Payload) (f : String) : Bool :=
  match pget p f with
  | none => false
  | some v => truthy v

theorem extractLoop_none (p : Payload) (fs : List String) (f : String)
    (hf : f ∈ fs) (h : truthyField p f = false) :
    extractLoop p fs = none := by
  induction fs with
  | nil => simp at hf
  | cons g fs1 ih =>
    simp only [extractLoop]
    rcases List.mem_cons.mp hf with heq | hmem
    · subst heq
      unfold truthyField at h
      split
      · rfl
      next v hv =>
        simp only [hv] at h
        simp [h]
    · split
      · rfl
      next v hv =>
        rw [ih hmem]
        split <;> rfl

theorem extractLoop_some_keys (p : Payload) :
    ∀ (fs : List String) (l : List (String × JVal)),
      extractLoop p fs = some l → l.map Prod.fst = fs := by
  intro fs
  induction fs with
  | nil =>
    intro l h
    simp only [extractLoop] at h
    cases h
    rfl
  | cons f fs1 ih =>
    intro l h
    simp only [extractLoop] at h
    split at h
    · cases h
    next v hv =>
      split at h
      · split at h
        · cases h
        next l1 hL =>
          cases h
          simp [ih l1 hL]
      · cases h

theorem extractLoop_some_truthy (p : Payload) :
    ∀ (fs : List String) (l : List (String × JVal)),
      extractLoop p fs = some l →
      ∀ kv ∈ l, pget p kv.1 = some kv.2 ∧ truthy kv.2 = true := by
  intro fs
  induction fs with
  | nil =>
    intro l h
    simp only [extractLoop] at h
    cases h
    simp
  | cons f fs1 ih =>
    intro l h
    simp only [extractLoop] at h
    split at h
    · cases h
    next v hv =>
      split at h
      next ht =>
        split at h
        · cases h
        next l1 hL =>
          cases h
          intro kv hkv
          rcases List.mem_cons.mp hkv with heq | hmem
          · subst heq
            exact ⟨hv, ht⟩
          · exact ih l1 hL kv hmem
      · cases h

/-- Elimination form of a successful decode. -/
theorem decode_elim (p : Payload) (now : Nat) (ident : List (String × JVal))
    (u : Doc) (h : decode p now = some (ident, u)) :
    extractIdentity p = some ident ∧
    ∃ msg szk byt sec spd,
      normalizeMessage p = some msg ∧
      dataGet p "size_kb" = some szk ∧ dataGet p "bytes" = some byt ∧
      dataGet p "seconds" = some sec ∧ dataGet p "speed_kbps" = some spd ∧
      lookupHandler (message_handlers now szk byt sec spd) msg = some u := by
  unfold decode at h
  split at h
  · cases h
  next i hI =>
    split at h
    · cases h
    next msg hmsg =>
      split at h
      next szk byt sec spd h1 h2 h3 h4 =>
        split at h
        next u1 hu =>
          cases h
          exact ⟨hI, msg, szk, byt, sec, spd, hmsg, h1, h2, h3, h4, hu⟩
        · cases h
      next =>
        cases h

/-- A successful handler lookup returns one of the seven fixed update
field-sets. -/
theorem lookupHandler_elim (now : Nat) (szk byt sec spd : Option Prim)
    (msg : String) (u : Doc)
    (h : lookupHandler (message_handlers now szk byt sec spd) msg = some u) :
    u = [("download_started_at", DVal.time now),
         ("flash_status", DVal.str "in progress")] ∨
    u = [("firmware_size_kb", primToDVal szk)] ∨
    u = [("bytes_written", primToDVal byt)] ∨
    u = [("download_duration_sec", primToDVal sec)] ∨
    u = [("download_speed_kbps", primToDVal spd)] ∨
    u = [("download_completed_at", DVal.time now)] ∨
    u = [("flash_completed_at", DVal.time now),
         ("flash_status", DVal.str "success")] := by
  simp only [message_handlers, lookupHandler] at h
  split at h
  · cases h; exact Or.inl rfl
  split at h
  · cases h; exact Or.inr (Or.inl rfl)
  split at h
  · cases h; exact Or.inr (Or.inr (Or.inl rfl))
  split at h
  · cases h; exact Or.inr (Or.inr (Or.inr (Or.inl rfl)))
  split at h
  · cases h; exact Or.inr (Or.inr (Or.inr (Or.inr (Or.inl rfl))))
  split at h
  · cases h; exact Or.inr (Or.inr (Or.inr (Or.inr (Or.inr (Or.inl rfl)))))
  split at h
  · cases h; exact Or.inr (Or.inr (Or.inr (Or.inr (Or.inr (Or.inr rfl)))))
  cases h

/-- The update field-set of every decoded message has one of the seven
handler shapes. -/
theorem decode_update_shape (p : Payload) (now : Nat)
    (ident : List (String × JVal)) (u : Doc)
    (h : decode p now = some (ident, u)) :
    u = [("download_started_at", DVal.time now),
         ("flash_status", DVal.str "in progress")] ∨
    (∃ a, u = [("firmware_size_kb", primToDVal a)]) ∨
    (∃ a, u = [("bytes_written", primToDVal a)]) ∨
    (∃ a, u = [("download_duration_sec", primToDVal a)]) ∨
    (∃ a, u = [("download_speed_kbps", primToDVal a)]) ∨
    u = [("download_completed_at", DVal.time now)] ∨
    u = [("flash_completed_at", DVal.time now),
         ("flash_status", DVal.str "success")] := by
  obtain ⟨-, msg, szk, byt, sec, spd, -, -, -, -, -, hu⟩ := decode_elim p now ident u h
  rcases lookupHandler_elim now szk byt sec spd msg u hu with
    hs | hs | hs | hs | hs | hs | hs
  · exact Or.inl hs
  · exact Or.inr (Or.inl ⟨szk, hs⟩)
  · exact Or.inr (Or.inr (Or.inl ⟨byt, hs⟩))
  · exact Or.inr (Or.inr (Or.inr (Or.inl ⟨sec, hs⟩)))
  · exact Or.inr (Or.inr (Or.inr (Or.inr (Or.inl ⟨spd, hs⟩))))
  · exact Or.inr (Or.inr (Or.inr (Or.inr (Or.inr (Or.inl hs)))))
  · exact Or.inr (Or.inr (Or.inr (Or.inr (Or.inr (Or.inr hs)))))

/-- Every field name any handler can set. -/
def updateKeys : List String :=
  ["download_started_at", "flash_status", "firmware_size_kb", "bytes_written",
   "download_duration_sec", "download_speed_kbps", "download_completed_at",
   "flash_completed_at"]

theorem decode_u_keys (p : Payload) (now : Nat)
    (ident : List (String × JVal)) (u : Doc)
    (h : decode p now = some (ident, u)) :
    ∀ k ∈ dkeys u, k ∈ updateKeys := by
  rcases decode_update_shape p now ident u h with
    hs | ⟨a, hs⟩ | ⟨a, hs⟩ | ⟨a, hs⟩ | ⟨a, hs⟩ | hs | hs <;>
    subst hs <;> intro k hk <;> simp only [dkeys, List.map] at hk <;>
    simp only [List.mem_cons, List.mem_singleton, List.not_mem_nil, or_false] at hk <;>
    rcases hk with rfl | rfl <;> simp [updateKeys]

theorem decode_u_nodup (p : Payload) (now : Nat)
    (ident : List (String × JVal)) (u : Doc)
    (h : decode p now = some (ident, u)) : (dkeys u).Nodup := by
  rcases decode_update_shape p now ident u h with
    hs | ⟨a, hs⟩ | ⟨a, hs⟩ | ⟨a, hs⟩ | ⟨a, hs⟩ | hs | hs <;>
    subst hs <;> simp [dkeys]

/-! ### Field-name facts -/

theorem mem_dkeys_of_mem (d : Doc) (kv : String × DVal) (h : kv ∈ d) :
    kv.1 ∈ dkeys d :=
  List.mem_map_of_mem Prod.fst h

theorem required_nodup : required_fields.Nodup := by decide

theorem optional_nodup : optional_fields.Nodup := by decide

theorem update_not_required (k : String) (hk : k ∈ updateKeys) :
    k ∉ required_fields := by
  simp [updateKeys] at hk
  rcases hk with rfl | rfl | rfl | rfl | rfl | rfl | rfl | rfl <;> decide

theorem update_ne_created (k : String) (hk : k ∈ updateKeys) :
    ¬ k = "created_at" := by
  simp [updateKeys] at hk
  rcases hk with rfl | rfl | rfl | rfl | rfl | rfl | rfl | rfl <;> decide

theorem update_ne_id (k : String) (hk : k ∈ updateKeys) : ¬ k = "_id" := by
  simp [updateKeys] at hk
  rcases hk with rfl | rfl | rfl | rfl | rfl | rfl | rfl | rfl <;> decide

theorem required_not_optional (k : String) (hk : k ∈ required_fields) :
    k ∉ optional_fields := by
  simp [required_fields] at hk
  rcases hk with rfl | rfl | rfl | rfl | rfl | rfl | rfl <;> decide

theorem required_ne_flash (k : String) (hk : k ∈ required_fields) :
    ¬ k = "flash_status" := by
  simp [required_fields] at hk
  rcases hk with rfl | rfl | rfl | rfl | rfl | rfl | rfl <;> decide

theorem required_ne_created (k : String) (hk : k ∈ required_fields) :
    ¬ k = "created_at" := by
  simp [required_fields] at hk
  rcases hk with rfl | rfl | rfl | rfl | rfl | rfl | rfl <;> decide

theorem required_ne_id (k : String) (hk : k ∈ required_fields) :
    ¬ k = "_id" := by
  simp [required_fields] at hk
  rcases hk with rfl | rfl | rfl | rfl | rfl | rfl | rfl <;> decide

/-! ### Filter-query lemmas -/

theorem decode_ident_keys (p : Payload) (now : Nat)
    (ident : List (String × JVal)) (u : Doc)
    (h : decode p now = some (ident, u)) :
    ident.map Prod.fst = required_fields :=
  extractLoop_some_keys p required_fields ident (decode_elim p now ident u h).1

theorem dkeys_filterQueryOf (ident : List (String × JVal)) :
    dkeys (filterQueryOf ident) = ident.map Prod.fst := by
  simp [dkeys, filterQueryOf, List.map_map]

theorem filterQueryOf_inj (i1 i2 : List (String × JVal))
    (h : filterQueryOf i1 = filterQueryOf i2) : i1 = i2 := by
  have hinj : Function.Injective (fun kv : String × JVal => (kv.1, DVal.jv kv.2)) := by
    intro a b hab
    rw [Prod.mk.injEq] at hab
    obtain ⟨h1, h2⟩ := hab
    injection h2 with h2
    exact Prod.ext h1 h2
  exact List.map_injective_iff.mpr hinj h

theorem matches_congr (d1 d2 q : Doc)
    (h : ∀ kv ∈ q, dget d1 kv.1 = dget d2 kv.1) :
    matchesFilter d1 q = matchesFilter d2 q := by
  induction q with
  | nil => rfl
  | cons kv q1 ih =>
    unfold matchesFilter at *
    simp only [List.all_cons]
    rw [h kv (List.mem_cons_self _ _),
      ih (fun kv1 hkv1 => h kv1 (List.mem_cons_of_mem _ hkv1))]

theorem matches_both_eq (d : Doc) :
    ∀ (q1 q2 : Doc), dkeys q1 = dkeys q2 →
      matchesFilter d q1 = true → matchesFilter d q2 = true → q1 = q2 := by
  intro q1
  induction q1 with
  | nil =>
    intro q2 hk _ _
    cases q2 with
    | nil => rfl
    | cons kw q2t => simp [dkeys] at hk
  | cons kv q1t ih =>
    intro q2 hk h1 h2
    cases q2 with
    | nil => simp [dkeys] at hk
    | cons kw q2t =>
      obtain ⟨k1, v1⟩ := kv
      obtain ⟨k2, v2⟩ := kw
      rw [dkeys_cons, dkeys_cons] at hk
      injection hk with hk0 hkt
      subst hk0
      rw [matchesFilter_iff] at h1 h2
      have e1 : dget d k1 = some v1 := h1 (k1, v1) (List.mem_cons_self _ _)
      have e2 : dget d k1 = some v2 := h2 (k1, v2) (List.mem_cons_self _ _)
      have hv : v1 = v2 := by
        have := e1.symm.trans e2
        injection this
      subst hv
      have ht : q1t = q2t := by
        refine ih q2t hkt ?_ ?_
        · rw [matchesFilter_iff]
          exact fun kv hkv => h1 kv (List.mem_cons_of_mem _ hkv)
        · rw [matchesFilter_iff]
          exact fun kv hkv => h2 kv (List.mem_cons_of_mem _ hkv)
      rw [ht]

theorem not_matches_both (d q1 q2 : Doc) (hk : dkeys q1 = dkeys q2)
    (hne : ¬ q1 = q2) (h1 : matchesFilter d q1 = true) :
    matchesFilter d q2 = false := by
  cases h2 : matchesFilter d q2 with
  | false => rfl
  | true => exact absurd (matches_both_eq d q1 q2 hk h1 h2) hne

/-! ### Lemmas about the inserted document -/

theorem dget_insertedDoc_other (fq u : Doc) (nr id : Nat) (k : String)
    (hk : ¬ k = "_id") :
    dget (insertedDoc fq u nr id) k = dget (seedDoc fq u nr) k := by
  unfold insertedDoc
  rw [dget_dset, if_neg (fun hh => hk hh.symm)]

theorem dget_insertedDoc_id (fq u : Doc) (nr id : Nat) :
    dget (insertedDoc fq u nr id) "_id" = some (DVal.oid id) := by
  unfold insertedDoc
  rw [dget_dset, if_pos rfl]

theorem dget_seedDoc_of_some (fq u : Doc) (nr : Nat) (k : String) (v : DVal)
    (h : dget (dsetAll fq u) k = some v) :
    dget (seedDoc fq u nr) k = some v := by
  unfold seedDoc
  exact dget_condSet_of_some _ _ _ _ _
    (dget_condSet_of_some _ _ _ _ _ (dget_padLoop_of_some _ _ _ _ h))

theorem insertedDoc_matches (fq u : Doc) (nr id : Nat)
    (hnd : (dkeys fq).Nodup) (hid : "_id" ∉ dkeys fq)
    (hdisj : ∀ k ∈ dkeys fq, k ∉ dkeys u) :
    matchesFilter (insertedDoc fq u nr id) fq = true := by
  rw [matchesFilter_iff]
  intro kv hkv
  have hkmem : kv.1 ∈ dkeys fq := mem_dkeys_of_mem fq kv hkv
  have h0 : dget (dsetAll fq u) kv.1 = some kv.2 := by
    rw [dget_dsetAll, dgetLast_eq_none u kv.1 (hdisj kv.1 hkmem)]
    exact dget_mem_nodup fq kv.1 kv.2 hnd hkv
  rw [dget_insertedDoc_other fq u nr id kv.1 (fun hh => hid (hh ▸ hkmem))]
  exact dget_seedDoc_of_some fq u nr kv.1 kv.2 h0

theorem dget_insertedDoc_of_u (fq u : Doc) (nr id : Nat) (k : String) (v : DVal)
    (hku : k ∈ updateKeys) (hget : dgetLast u k = some v) :
    dget (insertedDoc fq u nr id) k = some v := by
  have h0 : dget (dsetAll fq u) k = some v := by rw [dget_dsetAll, hget]
  rw [dget_insertedDoc_other fq u nr id k (update_ne_id k hku)]
  exact dget_seedDoc_of_some fq u nr k v h0

/-! ### Pipeline-step lemmas -/

/-- The message is live, parses to an object and decodes to the given
identity and update field-set. -/
def decodesTo (m : Msg) (ident : List (String × JVal)) (u : Doc) : Prop :=
  m.retained = false ∧
  ∃ p, m.raw = RawMsg.obj p ∧ decode p m.nowD = some (ident, u)

/-- The identity a message decodes to, if it is live and recognized. -/
def identOf (m : Msg) : Option (List (String × JVal)) :=
  if m.retained then none
  else
    match m.raw with
    | RawMsg.obj p => (decode p m.nowD).map Prod.fst
    | _ => none

/-- The update field-set a message decodes to ([] when rejected). -/
def updOf (m : Msg) : Doc :=
  if m.retained then []
  else
    match m.raw with
    | RawMsg.obj p =>
        match decode p m.nowD with
        | some iu => iu.2
        | none => []
    | _ => []

theorem decodesTo_updOf (m : Msg) (ident : List (String × JVal)) (u : Doc)
    (h : decodesTo m ident u) : updOf m = u ∧ identOf m = some ident := by
  obtain ⟨hret, p, hraw, hdec⟩ := h
  unfold updOf identOf
  rw [hret, hraw]
  simp [hdec]

theorem decodesTo_of_identOf (m : Msg) (ident : List (String × JVal))
    (h : identOf m = some ident) : decodesTo m ident (updOf m) := by
  obtain ⟨ret, raw, nD, nR, nI⟩ := m
  cases ret with
  | true =>
    have h2 : (none : Option (List (String × JVal))) = some ident := h
    cases h2
  | false =>
    cases raw with
    | malformed =>
      have h2 : (none : Option (List (String × JVal))) = some ident := h
      cases h2
    | nonObject =>
      have h2 : (none : Option (List (String × JVal))) = some ident := h
      cases h2
    | obj p =>
      have h2 : Option.map Prod.fst (decode p nD) = some ident := h
      cases hdec : decode p nD with
      | none => rw [hdec] at h2; cases h2
      | some iu =>
        obtain ⟨i1, u1⟩ := iu
        rw [hdec] at h2
        have h4 : some i1 = some ident := h2
        injection h4 with h2
        refine ⟨rfl, p, rfl, ?_⟩
        have h3 : updOf ⟨false, RawMsg.obj p, nD, nR, nI⟩ = u1 := by
          show (match decode p nD with
                | some iu => iu.2
                | none => ([] : Doc)) = u1
          rw [hdec]
        rw [h3, ← h2]
        exact hdec

theorem on_message_rejected (s : Store) (m : Msg) (h : identOf m = none) :
    on_message s m.retained m.raw m.nowD m.nowR m.newId = (s, none) := by
  obtain ⟨ret, raw, nD, nR, nI⟩ := m
  cases ret with
  | true => rfl
  | false =>
    cases raw with
    | malformed => rfl
    | nonObject => rfl
    | obj p =>
      have h2 : Option.map Prod.fst (decode p nD) = none := h
      cases hdec : decode p nD with
      | none =>
        show (match decode p nD with
              | none => ((s, none) : Store × Option Doc)
              | some (ident, u) =>
                  upsert_log s (filterQueryOf ident) u nR nI) = (s, none)
        rw [hdec]
      | some iu => rw [hdec] at h2; cases h2

theorem on_message_decoded (s : Store) (m : Msg)
    (ident : List (String × JVal)) (u : Doc) (h : decodesTo m ident u) :
    on_message s m.retained m.raw m.nowD m.nowR m.newId =
      upsert_log s (filterQueryOf ident) u m.nowR m.newId := by
  obtain ⟨hret, p, hraw, hdec⟩ := h
  unfold on_message
  rw [if_neg (by simp [hret]), hraw]
  simp [hdec]

theorem decodesTo_fq_keys (m : Msg) (ident : List (String × JVal)) (u : Doc)
    (h : decodesTo m ident u) :
    dkeys (filterQueryOf ident) = required_fields := by
  obtain ⟨-, p, -, hdec⟩ := h
  rw [dkeys_filterQueryOf]
  exact decode_ident_keys p m.nowD ident u hdec

theorem decodesTo_u_keys (m : Msg) (ident : List (String × JVal)) (u : Doc)
    (h : decodesTo m ident u) : ∀ k ∈ dkeys u, k ∈ updateKeys := by
  obtain ⟨-, p, -, hdec⟩ := h
  exact decode_u_keys p m.nowD ident u hdec

theorem decodesTo_u_nodup (m : Msg) (ident : List (String × JVal)) (u : Doc)
    (h : decodesTo m ident u) : (dkeys u).Nodup := by
  obtain ⟨-, p, -, hdec⟩ := h
  exact decode_u_nodup p m.nowD ident u hdec

/-- A field-set whose keys are update fields never touches a filter whose
keys are the seven identity fields: matching status is preserved. -/
theorem updateKeys_pres (u q : Doc) (hq : dkeys q = required_fields)
    (hu : ∀ k ∈ dkeys u, k ∈ updateKeys) :
    ∀ d, matchesFilter (dsetAll d u) q = matchesFilter d q := by
  intro d
  refine matches_congr (dsetAll d u) d q ?_
  intro kv hkv
  rw [dget_dsetAll, dgetLast_eq_none u kv.1 ?_]
  intro hh
  exact update_not_required kv.1 (hu kv.1 hh) (hq ▸ mem_dkeys_of_mem q kv hkv)

/-- A decoded update never touches a filter whose keys are the seven
identity fields: matching status is preserved pointwise. -/
theorem decodesTo_pres (m : Msg) (ident : List (String × JVal)) (u : Doc)
    (h : decodesTo m ident u) (q : Doc) (hq : dkeys q = required_fields) :
    ∀ d, matchesFilter (dsetAll d u) q = matchesFilter d q :=
  updateKeys_pres u q hq (decodesTo_u_keys m ident u h)

/-- The value the last field-set in a list assigns to a key. -/
def lastSetIn : List Doc → String → Option DVal
  | [], _ => none
  | u :: us, k =>
      match lastSetIn us k with
      | some v => some v
      | none => dgetLast u k

theorem dget_foldl_dsetAll (us : List Doc) :
    ∀ (d : Doc) (k : String),
      dget (List.foldl dsetAll d us) k =
        match lastSetIn us k with
        | some v => some v
        | none => dget d k := by
  induction us with
  | nil => intro d k; simp [lastSetIn]
  | cons u us1 ih =>
    intro d k
    rw [List.foldl_cons, ih]
    cases hL : lastSetIn us1 k with
    | some w => simp [lastSetIn, hL]
    | none => simp [lastSetIn, hL, dget_dsetAll]

theorem upsert_log_found (s : Store) (fq u : Doc) (nr id : Nat) (r : Doc)
    (h : find_one s fq = some r) :
    upsert_log s fq u nr id =
      (update_one s fq u, logModelOf (find_one (update_one s fq u) fq)) := by
  unfold upsert_log
  rw [h]

theorem upsert_log_notfound (s : Store) (fq u : Doc) (nr id : Nat)
    (h : find_one s fq = none) :
    upsert_log s fq u nr id =
      (s ++ [insertedDoc fq u nr id],
       logModelOf (some (insertedDoc fq u nr id))) := by
  unfold upsert_log
  rw [h]
  rfl

theorem decodesTo_fq_nodup (m : Msg) (ident : List (String × JVal)) (u : Doc)
    (h : decodesTo m ident u) : (dkeys (filterQueryOf ident)).Nodup := by
  rw [decodesTo_fq_keys m ident u h]
  exact required_nodup

theorem decodesTo_fq_no_id (m : Msg) (ident : List (String × JVal)) (u : Doc)
    (h : decodesTo m ident u) : "_id" ∉ dkeys (filterQueryOf ident) := by
  rw [decodesTo_fq_keys m ident u h]
  decide

theorem decodesTo_fq_disj (m : Msg) (ident : List (String × JVal)) (u : Doc)
    (h : decodesTo m ident u) :
    ∀ k ∈ dkeys (filterQueryOf ident), k ∉ dkeys u := by
  intro k hk hku
  exact update_not_required k (decodesTo_u_keys m ident u h k hku)
    (decodesTo_fq_keys m ident u h ▸ hk)

theorem decodesTo_inserted_matches (m : Msg) (ident : List (String × JVal))
    (u : Doc) (nr id : Nat) (h : decodesTo m ident u) :
    matchesFilter (insertedDoc (filterQueryOf ident) u nr id)
      (filterQueryOf ident) = true :=
  insertedDoc_matches _ _ _ _ (decodesTo_fq_nodup m ident u h)
    (decodesTo_fq_no_id m ident u h) (decodesTo_fq_disj m ident u h)

theorem stepMsg_found (s : Store) (m : Msg) (ident : List (String × JVal))
    (u : Doc) (r : Doc) (hm : decodesTo m ident u)
    (hfind : find_one s (filterQueryOf ident) = some r) :
    on_message s m.retained m.raw m.nowD m.nowR m.newId =
      (update_one s (filterQueryOf ident) u,
       logModelOf (some (dsetAll r u))) := by
  rw [on_message_decoded s m ident u hm,
      upsert_log_found s _ u m.nowR m.newId r hfind]
  have hmat : matchesFilter (dsetAll r u) (filterQueryOf ident) = true := by
    rw [decodesTo_pres m ident u hm _ (decodesTo_fq_keys m ident u hm) r]
    exact find_one_some_matches s _ r hfind
  rw [find_one_update_one s _ u r hfind hmat]

theorem stepMsg_notfound (s : Store) (m : Msg) (ident : List (String × JVal))
    (u : Doc) (hm : decodesTo m ident u)
    (hfind : find_one s (filterQueryOf ident) = none) :
    on_message s m.retained m.raw m.nowD m.nowR m.newId =
      (s ++ [insertedDoc (filterQueryOf ident) u m.nowR m.newId],
       logModelOf (some (insertedDoc (filterQueryOf ident) u m.nowR m.newId))) := by
  rw [on_message_decoded s m ident u hm,
      upsert_log_notfound s _ u m.nowR m.newId hfind]

theorem dgetLast_isSome_of_mem (u : Doc) (k : String) (h : k ∈ dkeys u) :
    (dgetLast u k).isSome = true := by
  induction u with
  | nil => simp [dkeys] at h
  | cons kv u1 ih =>
    obtain ⟨k1, v⟩ := kv
    rw [dkeys_cons] at h
    simp only [dgetLast]
    cases hL : dgetLast u1 k with
    | some w => simp
    | none =>
      rcases List.mem_cons.mp h with heq | hmem
      · simp [heq]
      · have := ih hmem
        rw [hL] at this
        simp at this

theorem lastSetIn_isSome_of_mem (us : List Doc) (u : Doc) (k : String)
    (hu : u ∈ us) (hk : k ∈ dkeys u) : (lastSetIn us k).isSome = true := by
  induction us with
  | nil => simp at hu
  | cons u1 us1 ih =>
    simp only [lastSetIn]
    cases hL : lastSetIn us1 k with
    | some w => simp
    | none =>
      rcases List.mem_cons.mp hu with heq | hmem
      · subst heq
        exact dgetLast_isSome_of_mem u k hk
      · have := ih hmem
        rw [hL] at this
        simp at this

theorem processMsgs_singleton (ident : List (String × JVal)) :
    ∀ (ms : List Msg) (r : Doc),
      (∀ m ∈ ms, ∃ u, decodesTo m ident u) →
      matchesFilter r (filterQueryOf ident) = true →
      processMsgs [r] ms = [List.foldl dsetAll r (ms.map updOf)] := by
  intro ms
  induction ms with
  | nil => intro r _ _; simp [processMsgs]
  | cons m ms1 ih =>
    intro r hall hmat
    obtain ⟨u, hm⟩ := hall m (List.mem_cons_self _ _)
    have hfind : find_one [r] (filterQueryOf ident) = some r := by
      simp [find_one, hmat]
    have hstep : stepMsg [r] m = [dsetAll r u] := by
      unfold stepMsg
      rw [stepMsg_found [r] m ident u r hm hfind]
      simp [update_one, hmat]
    have hmat2 : matchesFilter (dsetAll r u) (filterQueryOf ident) = true := by
      rw [decodesTo_pres m ident u hm _ (decodesTo_fq_keys m ident u hm) r]
      exact hmat
    show processMsgs (stepMsg [r] m) ms1 = _
    rw [hstep,
      ih (dsetAll r u) (fun m1 hm1 => hall m1 (List.mem_cons_of_mem _ hm1)) hmat2,
      List.map_cons, List.foldl_cons, (decodesTo_updOf m ident u hm).1]

theorem foldl_dsetAll_matches (q : Doc) (hq : dkeys q = required_fields) :
    ∀ (us : List Doc) (r : Doc),
      (∀ u ∈ us, ∀ k ∈ dkeys u, k ∈ updateKeys) →
      matchesFilter r q = true →
      matchesFilter (List.foldl dsetAll r us) q = true := by
  intro us
  induction us with
  | nil => intro r _ h; simpa using h
  | cons u us1 ih =>
    intro r hall hmat
    rw [List.foldl_cons]
    refine ih (dsetAll r u) (fun u1 hu1 => hall u1 (List.mem_cons_of_mem _ hu1)) ?_
    rw [updateKeys_pres u q hq (hall u (List.mem_cons_self _ _)) r]
    exact hmat

/-- C1: for every non-empty sequence of recognized update-kind messages
sharing one identity tuple, processed sequentially from a fresh store, the
final store holds exactly one UpdateSession record; that record carries
the identity fields, holds every field that any processed message set, and
each such field equals the value carried by the last processed message
that sets it. -/
theorem upsert_union_last_write_wins (ident : List (String × JVal))
    (ms : List Msg) (hne : ms ≠ [])
    (hall : ∀ m ∈ ms, ∃ u, decodesTo m ident u) :
    ∃ r, processMsgs [] ms = [r] ∧
      matchesFilter r (filterQueryOf ident) = true ∧
      (∀ k v, lastSetIn (ms.map updOf) k = some v → dget r k = some v) ∧
      (∀ m ∈ ms, ∀ k ∈ dkeys (updOf m), (dget r k).isSome = true) := by
  cases ms with
  | nil => exact absurd rfl hne
  | cons m ms1 =>
    obtain ⟨u, hm⟩ := hall m (List.mem_cons_self _ _)
    have hfind : find_one [] (filterQueryOf ident) = none := rfl
    have hstep : stepMsg [] m =
        [insertedDoc (filterQueryOf ident) u m.nowR m.newId] := by
      unfold stepMsg
      rw [stepMsg_notfound [] m ident u hm hfind]
      simp
    have hmat : matchesFilter
        (insertedDoc (filterQueryOf ident) u m.nowR m.newId)
        (filterQueryOf ident) = true :=
      decodesTo_inserted_matches m ident u m.nowR m.newId hm
    have hproc : processMsgs [] (m :: ms1) =
        [List.foldl dsetAll (insertedDoc (filterQueryOf ident) u m.nowR m.newId)
          (ms1.map updOf)] := by
      show processMsgs (stepMsg [] m) ms1 = _
      rw [hstep]
      exact processMsgs_singleton ident ms1 _
        (fun m1 hm1 => hall m1 (List.mem_cons_of_mem _ hm1)) hmat
    have hget : ∀ k v, lastSetIn ((m :: ms1).map updOf) k = some v →
        dget (List.foldl dsetAll
          (insertedDoc (filterQueryOf ident) u m.nowR m.newId)
          (ms1.map updOf)) k = some v := by
      intro k v hlast
      rw [List.map_cons, (decodesTo_updOf m ident u hm).1] at hlast
      rw [dget_foldl_dsetAll]
      simp only [lastSetIn] at hlast
      cases hL : lastSetIn (ms1.map updOf) k with
      | some w =>
        rw [hL] at hlast
        rw [hlast]
      | none =>
        rw [hL] at hlast
        have hku : k ∈ updateKeys :=
          decodesTo_u_keys m ident u hm k
            (mem_dkeys_of_mem u (k, v) (dgetLast_mem u k v hlast))
        exact dget_insertedDoc_of_u _ u m.nowR m.newId k v hku hlast
    refine ⟨_, hproc, ?_, hget, ?_⟩
    · refine foldl_dsetAll_matches (filterQueryOf ident)
        (decodesTo_fq_keys m ident u hm) (ms1.map updOf) _ ?_ hmat
      intro u1 hu1
      rcases List.mem_map.mp hu1 with ⟨m1, hm1, hu1eq⟩
      obtain ⟨u2, hm2⟩ := hall m1 (List.mem_cons_of_mem _ hm1)
      rw [← hu1eq, (decodesTo_updOf m1 ident u2 hm2).1]
      exact decodesTo_u_keys m1 ident u2 hm2
    · intro m1 hm1 k hk
      have hsome : (lastSetIn ((m :: ms1).map updOf) k).isSome = true :=
        lastSetIn_isSome_of_mem _ (updOf m1) k
          (List.mem_map_of_mem updOf hm1) hk
      rcases Option.isSome_iff_exists.mp hsome with ⟨v, hv⟩
      rw [hget k v hv]
      rfl

theorem dsetAll_dsetAll_self (r u : Doc) (hnd : (dkeys u).Nodup) :
    dsetAll (dsetAll r u) u = dsetAll r u := by
  refine dsetAll_self u (dsetAll r u) ?_
  intro kv hkv
  rw [dget_dsetAll, dgetLast_mem_nodup u kv.1 kv.2 hnd hkv]

set_option maxHeartbeats 1000000 in
/-- C2 (amended): applying the same payload twice is idempotent provided
the server decode time is unchanged between the two applications: the
second application leaves both the store and the returned record exactly
as the first left them, whatever repository insert times and fresh ids the
second run would use. -/
theorem idempotent_at_fixed_decode_time (s : Store) (raw : RawMsg)
    (nd nr1 id1 nr2 id2 : Nat) :
    on_message (on_message s false raw nd nr1 id1).1 false raw nd nr2 id2 =
      on_message s false raw nd nr1 id1 := by
  cases raw with
  | malformed => rfl
  | nonObject => rfl
  | obj p =>
    cases hdec : decode p nd with
    | none => simp [on_message, hdec]
    | some iu =>
      obtain ⟨ident, u⟩ := iu
      have hom : ∀ (s2 : Store) (nr id : Nat),
          on_message s2 false (RawMsg.obj p) nd nr id =
            upsert_log s2 (filterQueryOf ident) u nr id := by
        intro s2 nr id
        simp [on_message, hdec]
      simp only [hom]
      have hdto : decodesTo ⟨false, RawMsg.obj p, nd, nr1, id1⟩ ident u :=
        ⟨rfl, p, rfl, hdec⟩
      have hfqk : dkeys (filterQueryOf ident) = required_fields :=
        decodesTo_fq_keys _ ident u hdto
      have hukeys : ∀ k ∈ dkeys u, k ∈ updateKeys :=
        decodesTo_u_keys _ ident u hdto
      have hnd2 : (dkeys u).Nodup := decodesTo_u_nodup _ ident u hdto
      have hpres := updateKeys_pres u (filterQueryOf ident) hfqk hukeys
      cases hfind : find_one s (filterQueryOf ident) with
      | some r =>
        rw [upsert_log_found s _ u nr1 id1 r hfind]
        have hmat : matchesFilter (dsetAll r u) (filterQueryOf ident) = true := by
          rw [hpres r]
          exact find_one_some_matches s _ r hfind
        have h1 : find_one (update_one s (filterQueryOf ident) u)
            (filterQueryOf ident) = some (dsetAll r u) :=
          find_one_update_one s _ u r hfind hmat
        show upsert_log (update_one s (filterQueryOf ident) u)
            (filterQueryOf ident) u nr2 id2 = _
        rw [upsert_log_found _ _ u nr2 id2 (dsetAll r u) h1]
        have hupd : update_one (update_one s (filterQueryOf ident) u)
            (filterQueryOf ident) u = update_one s (filterQueryOf ident) u := by
          refine update_one_self _ _ u ?_
          intro r1 hr1
          rw [h1] at hr1
          injection hr1 with hr1
          rw [← hr1]
          exact dsetAll_dsetAll_self r u hnd2
        rw [hupd]
      | none =>
        rw [upsert_log_notfound s _ u nr1 id1 hfind]
        have hmatD : matchesFilter (insertedDoc (filterQueryOf ident) u nr1 id1)
            (filterQueryOf ident) = true :=
          decodesTo_inserted_matches _ ident u nr1 id1 hdto
        have h1 : find_one (s ++ [insertedDoc (filterQueryOf ident) u nr1 id1])
            (filterQueryOf ident) =
            some (insertedDoc (filterQueryOf ident) u nr1 id1) := by
          rw [find_one_append_one, hfind]
          simp [hmatD]
        show upsert_log (s ++ [insertedDoc (filterQueryOf ident) u nr1 id1])
            (filterQueryOf ident) u nr2 id2 = _
        rw [upsert_log_found _ _ u nr2 id2 _ h1]
        have hGD : dsetAll (insertedDoc (filterQueryOf ident) u nr1 id1) u =
            insertedDoc (filterQueryOf ident) u nr1 id1 := by
          refine dsetAll_self u _ ?_
          intro kv hkv
          exact dget_insertedDoc_of_u _ u nr1 id1 kv.1 kv.2
            (hukeys kv.1 (mem_dkeys_of_mem u kv hkv))
            (dgetLast_mem_nodup u kv.1 kv.2 hnd2 hkv)
        have hupd : update_one (s ++ [insertedDoc (filterQueryOf ident) u nr1 id1])
            (filterQueryOf ident) u =
            s ++ [insertedDoc (filterQueryOf ident) u nr1 id1] := by
          refine update_one_self _ _ u ?_
          intro r1 hr1
          rw [h1] at hr1
          injection hr1 with hr1
          rw [← hr1]
          exact hGD
        rw [hupd, h1]

/-- C3: a message in which any one of the seven identity fields is absent
or not truthy is rejected whole: the store is unchanged and nothing is
handed to the notifier. -/
theorem missing_identity_field_rejected (s : Store) (p : Payload)
    (nd nr id : Nat)
    (h : ∃ f ∈ required_fields, truthyField p f = false) :
    on_message s false (RawMsg.obj p) nd nr id = (s, none) := by
  obtain ⟨f, hf, hfall⟩ := h
  have hext : extractIdentity p = none :=
    extractLoop_none p required_fields f hf hfall
  have hdec : decode p nd = none := by
    unfold decode
    rw [hext]
  simp [on_message, hdec]

/-- C4: a retained message is dropped without any processing: the store is
unchanged and nothing is handed to the notifier, whatever the content. -/
theorem retained_message_dropped (s : Store) (raw : RawMsg) (nd nr id : Nat) :
    on_message s true raw nd nr id = (s, none) := rfl

/-! ### Concrete inbound messages used by the closed instances below -/

/-- A concrete well-formed identity block. -/
def pIdent : Payload :=
  [("session_id", JVal.prim (Prim.str "s1")),
   ("node_mac", JVal.prim (Prim.str "AA:BB:CC:DD:EE:FF")),
   ("node_location", JVal.prim (Prim.str "greenhouse")),
   ("node_type", JVal.prim (Prim.str "seedbed")),
   ("node_id", JVal.prim (Prim.str "1a")),
   ("node_codename", JVal.prim (Prim.str "node-one")),
   ("firmware_version", JVal.prim (Prim.str "1.0.0"))]

/-- The identity tuple extracted from pIdent. -/
def identW : List (String × JVal) := pIdent

/-- An "OTA Update Started" message for that identity. -/
def pStarted : Payload :=
  pIdent ++ [("message", JVal.prim (Prim.str "OTA Update Started"))]

/-- A "Firmware size OK" message carrying data.size_kb = 1024. -/
def pSizeOk : Payload :=
  pIdent ++ [("message", JVal.prim (Prim.str "Firmware size OK")),
             ("data", JVal.obj [("size_kb", Prim.num 1024)])]

/-- A "Firmware size OK" message with no data object at all. -/
def pSizeOkNoData : Payload :=
  pIdent ++ [("message", JVal.prim (Prim.str "Firmware size OK"))]

/-- An "OTA update complete" message for that identity. -/
def pComplete : Payload :=
  pIdent ++ [("message", JVal.prim (Prim.str "OTA update complete"))]

example : decode pStarted 5 =
    some (identW,
      [("download_started_at", DVal.time 5),
       ("flash_status", DVal.str "in progress")]) := by decide

example : decode pSizeOk 7 =
    some (identW, [("firmware_size_kb", DVal.jv (JVal.prim (Prim.num 1024)))]) := by
  decide

example : decode pSizeOkNoData 9 =
    some (identW, [("firmware_size_kb", DVal.null)]) := by decide

example : decode
    (pIdent ++ [("message", JVal.prim (Prim.str "\x1cFirmware size OK"))]) 9 =
    some (identW, [("firmware_size_kb", DVal.null)]) := by decide

example : decode pComplete 11 =
    some (identW,
      [("flash_completed_at", DVal.time 11),
       ("flash_status", DVal.str "success")]) := by decide

/-- The started message as a pipeline message (decode tick 5). -/
def msgStarted : Msg := ⟨false, RawMsg.obj pStarted, 5, 6, 1⟩

/-- The size message as a pipeline message (decode tick 7). -/
def msgSizeOk : Msg := ⟨false, RawMsg.obj pSizeOk, 7, 8, 2⟩

/-- The data-less size message as a pipeline message (decode tick 9). -/
def msgSizeOkNoData : Msg := ⟨false, RawMsg.obj pSizeOkNoData, 9, 10, 3⟩

/-- The completion message as a pipeline message (decode tick 11). -/
def msgComplete : Msg := ⟨false, RawMsg.obj pComplete, 11, 12, 4⟩

/-- The update fields decoded from pStarted at tick 5. -/
def uStarted5 : Doc :=
  [("download_started_at", DVal.time 5), ("flash_status", DVal.str "in progress")]

/-- The update fields decoded from pSizeOk. -/
def uSizeOk : Doc := [("firmware_size_kb", DVal.jv (JVal.prim (Prim.num 1024)))]

/-- A payload with no session_id at all. -/
def pMissingSession : Payload :=
  [("node_mac", JVal.prim (Prim.str "AA:BB:CC:DD:EE:FF")),
   ("message", JVal.prim (Prim.str "OTA Update Started"))]

/-- C1 (witness): the started-then-size sequence at a concrete identity. -/
theorem upsert_union_last_write_wins_witness :
    ∃ r, processMsgs [] [msgStarted, msgSizeOk] = [r] ∧
      matchesFilter r (filterQueryOf identW) = true ∧
      (∀ k v, lastSetIn ([msgStarted, msgSizeOk].map updOf) k = some v →
        dget r k = some v) ∧
      (∀ m ∈ [msgStarted, msgSizeOk], ∀ k ∈ dkeys (updOf m),
        (dget r k).isSome = true) :=
  upsert_union_last_write_wins identW [msgStarted, msgSizeOk]
    (by decide)
    (by
      intro m hm
      rcases List.mem_cons.mp hm with rfl | hm1
      · exact ⟨uStarted5, rfl, pStarted, rfl, by decide⟩
      rcases List.mem_cons.mp hm1 with rfl | hm2
      · exact ⟨uSizeOk, rfl, pSizeOk, rfl, by decide⟩
      · cases hm2)

/-- C2 (counterexample): replaying the byte-identical started payload one
server tick later changes the returned record (download_started_at is
refreshed to the new decode time), so applying the same payload twice is
not idempotent once the server clock has advanced. -/
theorem idempotence_cex :
    ¬ ((on_message (on_message [] false (RawMsg.obj pStarted) 0 0 0).1
          false (RawMsg.obj pStarted) 1 1 1).2 =
        (on_message [] false (RawMsg.obj pStarted) 0 0 0).2) := by decide

/-- C3 (witness): a payload missing session_id entirely is rejected with
no store change. -/
theorem missing_identity_field_rejected_witness :
    on_message [] false (RawMsg.obj pMissingSession) 0 0 0 = ([], none) :=
  missing_identity_field_rejected [] pMissingSession 0 0 0
    ⟨"session_id", by decide, by decide⟩

theorem dget_dsetAll_none (d u : Doc) (k : String)
    (hL : dgetLast u k = none) : dget (dsetAll d u) k = dget d k := by
  rw [dget_dsetAll, hL]

theorem dget_dsetAll_some (d u : Doc) (k : String) (v : DVal)
    (hL : dgetLast u k = some v) : dget (dsetAll d u) k = some v := by
  rw [dget_dsetAll, hL]

theorem optional_ne_id (k : String) (hk : k ∈ optional_fields) :
    ¬ k = "_id" := by
  simp [optional_fields] at hk
  rcases hk with rfl | rfl | rfl | rfl | rfl | rfl | rfl <;> decide

theorem optional_ne_created (k : String) (hk : k ∈ optional_fields) :
    ¬ k = "created_at" := by
  simp [optional_fields] at hk
  rcases hk with rfl | rfl | rfl | rfl | rfl | rfl | rfl <;> decide

theorem optional_ne_flash (k : String) (hk : k ∈ optional_fields) :
    ¬ k = "flash_status" := by
  simp [optional_fields] at hk
  rcases hk with rfl | rfl | rfl | rfl | rfl | rfl | rfl <;> decide

/-- C5 (amended): an upsert whose composite identity matches no existing
record appends exactly one new record, seeded with the identity fields
and the given update fields, with every progress field not set by the
update explicitly null, flash_status defaulting to "in progress" when the
update does not set it, and a freshly generated created_at; the returned
record is the stored record, including the store-assigned surrogate id,
provided it passes LogModel validation -- when validation raises, the
insert has still happened and None is returned. -/
theorem upsert_creates_seeded_record (s : Store) (fq u : Doc) (nr id : Nat)
    (hfind : find_one s fq = none)
    (hnd : (dkeys fq).Nodup)
    (hfq : ∀ k ∈ dkeys fq, k ∈ required_fields)
    (hu : ∀ k ∈ dkeys u, k ∈ updateKeys) :
    upsert_log s fq u nr id =
      (s ++ [insertedDoc fq u nr id],
       logModelOf (some (insertedDoc fq u nr id))) ∧
    (validLogModel (insertedDoc fq u nr id) = true →
      (upsert_log s fq u nr id).2 = some (insertedDoc fq u nr id)) ∧
    dget (insertedDoc fq u nr id) "_id" = some (DVal.oid id) ∧
    dget (insertedDoc fq u nr id) "created_at" = some (DVal.time nr) ∧
    (∀ kv ∈ fq, dget (insertedDoc fq u nr id) kv.1 = some kv.2) ∧
    (∀ k v, dgetLast u k = some v → dget (insertedDoc fq u nr id) k = some v) ∧
    (∀ k ∈ optional_fields, k ∉ dkeys u →
      dget (insertedDoc fq u nr id) k = some DVal.null) ∧
    ("flash_status" ∉ dkeys u →
      dget (insertedDoc fq u nr id) "flash_status" =
        some (DVal.str "in progress")) := by
  have hdisj : ∀ k ∈ dkeys fq, k ∉ dkeys u := fun k hk hku =>
    update_not_required k (hu k hku) (hfq k hk)
  have hfq_id : "_id" ∉ dkeys fq := fun hh => required_ne_id _ (hfq _ hh) rfl
  refine ⟨upsert_log_notfound s fq u nr id hfind, ?_,
    dget_insertedDoc_id fq u nr id, ?_, ?_, ?_, ?_, ?_⟩
  · intro hvalid
    rw [upsert_log_notfound s fq u nr id hfind]
    simp [logModelOf, hvalid]
  · have hcu : "created_at" ∉ dkeys u := fun hh =>
      update_ne_created _ (hu _ hh) rfl
    have hcf : "created_at" ∉ dkeys fq := fun hh =>
      required_ne_created _ (hfq _ hh) rfl
    rw [dget_insertedDoc_other fq u nr id "created_at" (by decide)]
    unfold seedDoc
    have h1 : dget (padLoop (dsetAll fq u) optional_fields) "created_at" = none := by
      rw [dget_padLoop_not_mem optional_fields _ _ (by decide),
        dget_dsetAll_none fq u _ (dgetLast_eq_none u _ hcu)]
      exact dget_eq_none fq _ hcf
    have h2 : dget (condSet (padLoop (dsetAll fq u) optional_fields)
        "flash_status" (DVal.str "in progress")) "created_at" = none := by
      rw [dget_condSet_other _ _ _ _ (by decide)]
      exact h1
    exact dget_condSet_none _ _ _ h2
  · intro kv hkv
    exact (matchesFilter_iff _ fq).mp
      (insertedDoc_matches fq u nr id hnd hfq_id hdisj) kv hkv
  · intro k v hvv
    exact dget_insertedDoc_of_u fq u nr id k v
      (hu k (mem_dkeys_of_mem u (k, v) (dgetLast_mem u k v hvv))) hvv
  · intro k hkopt hknu
    rw [dget_insertedDoc_other fq u nr id k (optional_ne_id k hkopt)]
    unfold seedDoc
    have h0 : dget (dsetAll fq u) k = none := by
      rw [dget_dsetAll_none fq u k (dgetLast_eq_none u k hknu)]
      exact dget_eq_none fq k (fun hh => required_not_optional k (hfq k hh) hkopt)
    have h1 : dget (padLoop (dsetAll fq u) optional_fields) k = some DVal.null :=
      dget_padLoop_null optional_fields _ k optional_nodup hkopt h0
    exact dget_condSet_of_some _ "created_at" k (DVal.time nr) _
      (dget_condSet_of_some _ "flash_status" k (DVal.str "in progress") _ h1)
  · intro hfl
    rw [dget_insertedDoc_other fq u nr id "flash_status" (by decide)]
    unfold seedDoc
    have h0 : dget (dsetAll fq u) "flash_status" = none := by
      rw [dget_dsetAll_none fq u _ (dgetLast_eq_none u _ hfl)]
      exact dget_eq_none fq _ (fun hh => required_ne_flash _ (hfq _ hh) rfl)
    have h1 : dget (padLoop (dsetAll fq u) optional_fields) "flash_status" = none := by
      rw [dget_padLoop_not_mem optional_fields _ _ (by decide)]
      exact h0
    exact dget_condSet_of_some _ "created_at" _ (DVal.time nr) _
      (dget_condSet_none _ _ _ h1)

/-- A truthy identity whose node_mac is shorter than LogModel's 12-char
minimum: it passes the decoder's truthiness validation but fails pydantic
validation. -/
def identBad : List (String × JVal) :=
  [("session_id", JVal.prim (Prim.str "s1")),
   ("node_mac", JVal.prim (Prim.str "X")),
   ("node_location", JVal.prim (Prim.str "greenhouse")),
   ("node_type", JVal.prim (Prim.str "seedbed")),
   ("node_id", JVal.prim (Prim.str "1a")),
   ("node_codename", JVal.prim (Prim.str "node-one")),
   ("firmware_version", JVal.prim (Prim.str "1.0.0"))]

/-- C5 (counterexample): with a truthy identity whose node_mac is only
one character, the upsert inserts exactly one new record but the
LogModel construction of the return raises (min_length 12) and the caught
exception returns None -- no returned record carries the surrogate id,
against the claim as stated. -/
theorem upsert_create_returns_none_cex :
    upsert_log [] (filterQueryOf identBad) uStarted5 6 1 =
      ([insertedDoc (filterQueryOf identBad) uStarted5 6 1], none) := by decide

/-- C5 (witness): creating from the started message's field-set at the
concrete valid identity, where LogModel validation succeeds and the
record is returned with its surrogate id. -/
theorem upsert_creates_seeded_record_witness :
    upsert_log [] (filterQueryOf identW) uStarted5 6 1 =
      ([] ++ [insertedDoc (filterQueryOf identW) uStarted5 6 1],
       logModelOf (some (insertedDoc (filterQueryOf identW) uStarted5 6 1))) ∧
    (upsert_log [] (filterQueryOf identW) uStarted5 6 1).2 =
      some (insertedDoc (filterQueryOf identW) uStarted5 6 1) ∧
    dget (insertedDoc (filterQueryOf identW) uStarted5 6 1) "_id" =
      some (DVal.oid 1) ∧
    dget (insertedDoc (filterQueryOf identW) uStarted5 6 1) "created_at" =
      some (DVal.time 6) ∧
    (∀ kv ∈ filterQueryOf identW,
      dget (insertedDoc (filterQueryOf identW) uStarted5 6 1) kv.1 = some kv.2) ∧
    (∀ k v, dgetLast uStarted5 k = some v →
      dget (insertedDoc (filterQueryOf identW) uStarted5 6 1) k = some v) ∧
    (∀ k ∈ optional_fields, k ∉ dkeys uStarted5 →
      dget (insertedDoc (filterQueryOf identW) uStarted5 6 1) k =
        some DVal.null) ∧
    ("flash_status" ∉ dkeys uStarted5 →
      dget (insertedDoc (filterQueryOf identW) uStarted5 6 1) "flash_status" =
        some (DVal.str "in progress")) := by
  have h := upsert_creates_seeded_record [] (filterQueryOf identW) uStarted5 6 1
    rfl (by decide) (by decide) (by decide)
  exact ⟨h.1, h.2.1 (by decide), h.2.2⟩

/-- C8: an upsert that finds an existing record applies a set-only partial
overwrite of exactly the update's fields to that one stored record: the
store becomes update_one of itself, the re-read finds the record with
exactly the update applied, every field not named in the update
(created_at and the identity fields among them) is unchanged, no field is
removed, and each named field takes the update's value. -/
theorem upsert_found_set_only_overwrite (s : Store) (fq u : Doc) (nr id : Nat)
    (r : Doc) (hfind : find_one s fq = some r)
    (hfq : dkeys fq = required_fields)
    (hu : ∀ k ∈ dkeys u, k ∈ updateKeys) :
    (upsert_log s fq u nr id).1 = update_one s fq u ∧
    find_one (update_one s fq u) fq = some (dsetAll r u) ∧
    (∀ k, k ∉ dkeys u → dget (dsetAll r u) k = dget r k) ∧
    dget (dsetAll r u) "created_at" = dget r "created_at" ∧
    (∀ k, (dget r k).isSome = true → (dget (dsetAll r u) k).isSome = true) ∧
    (∀ k v, dgetLast u k = some v → dget (dsetAll r u) k = some v) := by
  have hpres := updateKeys_pres u fq hfq hu
  have hmat : matchesFilter (dsetAll r u) fq = true := by
    rw [hpres r]
    exact find_one_some_matches s fq r hfind
  have hnotin : ∀ k, k ∉ dkeys u → dget (dsetAll r u) k = dget r k :=
    fun k hk => dget_dsetAll_none r u k (dgetLast_eq_none u k hk)
  refine ⟨?_, find_one_update_one s fq u r hfind hmat, hnotin,
    hnotin "created_at" (fun hh => update_ne_created _ (hu _ hh) rfl), ?_, ?_⟩
  · rw [upsert_log_found s fq u nr id r hfind]
  · intro k hk
    cases hL : dgetLast u k with
    | some w => rw [dget_dsetAll_some r u k w hL]; rfl
    | none => rw [dget_dsetAll_none r u k hL]; exact hk
  · intro k v hvv
    exact dget_dsetAll_some r u k v hvv

/-- An existing record for the concrete identity (created by the started
message's field-set). -/
def rExisting : Doc := insertedDoc (filterQueryOf identW) uStarted5 6 1

/-- C8 (witness): updating the existing record with the size field-set. -/
theorem upsert_found_set_only_overwrite_witness :
    (upsert_log [rExisting] (filterQueryOf identW) uSizeOk 8 2).1 =
      update_one [rExisting] (filterQueryOf identW) uSizeOk ∧
    find_one (update_one [rExisting] (filterQueryOf identW) uSizeOk)
      (filterQueryOf identW) = some (dsetAll rExisting uSizeOk) ∧
    (∀ k, k ∉ dkeys uSizeOk →
      dget (dsetAll rExisting uSizeOk) k = dget rExisting k) ∧
    dget (dsetAll rExisting uSizeOk) "created_at" =
      dget rExisting "created_at" ∧
    (∀ k, (dget rExisting k).isSome = true →
      (dget (dsetAll rExisting uSizeOk) k).isSome = true) ∧
    (∀ k v, dgetLast uSizeOk k = some v →
      dget (dsetAll rExisting uSizeOk) k = some v) :=
  upsert_found_set_only_overwrite [rExisting] (filterQueryOf identW) uSizeOk
    8 2 rExisting (by decide) (by decide) (by decide)

/-- C10: an "ota update started" message for an identity whose record
exists sets flash_status back to "in progress" (and stamps
download_started_at with the decode time) on that stored record, whatever
flash_status held before -- in particular "success" is reverted, so it is
not a terminal state. -/
theorem ota_started_resets_flash_status (s : Store) (p : Payload)
    (nd nr id : Nat) (ident : List (String × JVal)) (u : Doc) (r : Doc)
    (hdec : decode p nd = some (ident, u))
    (hmsg : normalizeMessage p = some "ota update started")
    (hfind : find_one s (filterQueryOf ident) = some r) :
    (on_message s false (RawMsg.obj p) nd nr id).1 =
      update_one s (filterQueryOf ident) u ∧
    find_one ((on_message s false (RawMsg.obj p) nd nr id).1)
      (filterQueryOf ident) = some (dsetAll r u) ∧
    dget (dsetAll r u) "flash_status" = some (DVal.str "in progress") ∧
    dget (dsetAll r u) "download_started_at" = some (DVal.time nd) := by
  obtain ⟨-, msg, szk, byt, sec, spd, hmsg2, -, -, -, -, hu⟩ :=
    decode_elim p nd ident u hdec
  have hme : msg = "ota update started" := by
    have hh := hmsg2.symm.trans hmsg
    injection hh
  subst hme
  have hu2 : u = [("download_started_at", DVal.time nd),
      ("flash_status", DVal.str "in progress")] := by
    simp only [message_handlers, lookupHandler] at hu
    rw [if_pos trivial] at hu
    injection hu with hu
    exact hu.symm
  subst hu2
  have hdto : decodesTo ⟨false, RawMsg.obj p, nd, nr, id⟩ ident
      [("download_started_at", DVal.time nd),
       ("flash_status", DVal.str "in progress")] := ⟨rfl, p, rfl, hdec⟩
  have hstep : (on_message s false (RawMsg.obj p) nd nr id).1 =
      update_one s (filterQueryOf ident)
        [("download_started_at", DVal.time nd),
         ("flash_status", DVal.str "in progress")] := by
    rw [show on_message s false (RawMsg.obj p) nd nr id =
        on_message s (Msg.retained ⟨false, RawMsg.obj p, nd, nr, id⟩)
          (Msg.raw ⟨false, RawMsg.obj p, nd, nr, id⟩)
          (Msg.nowD ⟨false, RawMsg.obj p, nd, nr, id⟩)
          (Msg.nowR ⟨false, RawMsg.obj p, nd, nr, id⟩)
          (Msg.newId ⟨false, RawMsg.obj p, nd, nr, id⟩) from rfl,
      stepMsg_found s ⟨false, RawMsg.obj p, nd, nr, id⟩ ident _ r hdto hfind]
  have hmat : matchesFilter
      (dsetAll r [("download_started_at", DVal.time nd),
        ("flash_status", DVal.str "in progress")]) (filterQueryOf ident) = true := by
    rw [updateKeys_pres _ _ (decodesTo_fq_keys _ ident _ hdto)
      (decodesTo_u_keys _ ident _ hdto) r]
    exact find_one_some_matches s _ r hfind
  refine ⟨hstep, ?_, ?_, ?_⟩
  · rw [hstep]
    exact find_one_update_one s _ _ r hfind hmat
  · exact dget_dsetAll_some r _ _ _ rfl
  · exact dget_dsetAll_some r _ _ _ rfl

/-- A record for the concrete identity whose flash_status is "success"
(as left by an "OTA update complete" message). -/
def rSuccess : Doc :=
  insertedDoc (filterQueryOf identW)
    [("flash_completed_at", DVal.time 3), ("flash_status", DVal.str "success")] 3 9

/-- C10 (witness): on a record whose flash_status is "success", a later
started message reverts it to "in progress". -/
theorem ota_started_resets_flash_status_witness :
    dget rSuccess "flash_status" = some (DVal.str "success") ∧
    ((on_message [rSuccess] false (RawMsg.obj pStarted) 5 6 1).1 =
      update_one [rSuccess] (filterQueryOf identW) uStarted5 ∧
     find_one ((on_message [rSuccess] false (RawMsg.obj pStarted) 5 6 1).1)
       (filterQueryOf identW) = some (dsetAll rSuccess uStarted5) ∧
     dget (dsetAll rSuccess uStarted5) "flash_status" =
       some (DVal.str "in progress") ∧
     dget (dsetAll rSuccess uStarted5) "download_started_at" =
       some (DVal.time 5)) :=
  ⟨by decide,
   ota_started_resets_flash_status [rSuccess] pStarted 5 6 1 identW uStarted5
     rSuccess (by decide) (by decide) (by decide)⟩

/-! ### Independence of distinct composite identities -/

theorem stepMsg_rejected (s : Store) (m : Msg) (h : identOf m = none) :
    stepMsg s m = s := by
  unfold stepMsg
  rw [on_message_rejected s m h]

theorem stepMsg_found_store (s : Store) (m : Msg)
    (ident : List (String × JVal)) (u : Doc) (r : Doc)
    (hm : decodesTo m ident u)
    (hfind : find_one s (filterQueryOf ident) = some r) :
    stepMsg s m = update_one s (filterQueryOf ident) u := by
  unfold stepMsg
  rw [stepMsg_found s m ident u r hm hfind]

theorem stepMsg_notfound_store (s : Store) (m : Msg)
    (ident : List (String × JVal)) (u : Doc)
    (hm : decodesTo m ident u)
    (hfind : find_one s (filterQueryOf ident) = none) :
    stepMsg s m = s ++ [insertedDoc (filterQueryOf ident) u m.nowR m.newId] := by
  unfold stepMsg
  rw [stepMsg_notfound s m ident u hm hfind]

theorem step_count_le_one (s : Store) (m : Msg)
    (h : ∀ q2 : Doc, dkeys q2 = required_fields → countMatching s q2 ≤ 1) :
    ∀ q2 : Doc, dkeys q2 = required_fields →
      countMatching (stepMsg s m) q2 ≤ 1 := by
  intro q2 hq2
  cases hident : identOf m with
  | none =>
    rw [stepMsg_rejected s m hident]
    exact h q2 hq2
  | some ident =>
    have hdto := decodesTo_of_identOf m ident hident
    have hukeys := decodesTo_u_keys m ident _ hdto
    have hfqk := decodesTo_fq_keys m ident _ hdto
    cases hfind : find_one s (filterQueryOf ident) with
    | some r =>
      rw [stepMsg_found_store s m ident (updOf m) r hdto hfind,
        countMatching_update_one s _ (updOf m) q2
          (updateKeys_pres (updOf m) q2 hq2 hukeys)]
      exact h q2 hq2
    | none =>
      rw [stepMsg_notfound_store s m ident (updOf m) hdto hfind,
        countMatching_append_one]
      cases hmatD : matchesFilter
          (insertedDoc (filterQueryOf ident) (updOf m) m.nowR m.newId) q2 with
      | false =>
        simp only [hmatD, Bool.false_eq_true, if_false, Nat.add_zero]
        exact h q2 hq2
      | true =>
        have hq2eq : q2 = filterQueryOf ident := by
          refine matches_both_eq _ q2 (filterQueryOf ident)
            (by rw [hq2, hfqk]) hmatD ?_
          exact decodesTo_inserted_matches m ident (updOf m) m.nowR m.newId hdto
        subst hq2eq
        rw [find_one_eq_none_count s _ hfind]
        simp [hmatD]

theorem processMsgs_count_le_one (ms : List Msg) :
    ∀ s : Store,
      (∀ q2 : Doc, dkeys q2 = required_fields → countMatching s q2 ≤ 1) →
      ∀ q2 : Doc, dkeys q2 = required_fields →
        countMatching (processMsgs s ms) q2 ≤ 1 := by
  induction ms with
  | nil => intro s h q2 hq2; exact h q2 hq2
  | cons m ms1 ih =>
    intro s h q2 hq2
    exact ih (stepMsg s m) (step_count_le_one s m h) q2 hq2

theorem step_other_find (s : Store) (m : Msg) (q : Doc)
    (hq : dkeys q = required_fields) (ident : List (String × JVal))
    (hident : identOf m = some ident) (hne : ¬ filterQueryOf ident = q) :
    find_one (stepMsg s m) q = find_one s q := by
  have hdto := decodesTo_of_identOf m ident hident
  have hukeys := decodesTo_u_keys m ident _ hdto
  have hfqk := decodesTo_fq_keys m ident _ hdto
  cases hfind : find_one s (filterQueryOf ident) with
  | some r =>
    rw [stepMsg_found_store s m ident (updOf m) r hdto hfind]
    refine find_one_update_one_other s q (filterQueryOf ident) (updOf m) ?_
    intro d hd
    constructor
    · exact not_matches_both d (filterQueryOf ident) q (by rw [hfqk, hq]) hne hd
    · rw [updateKeys_pres (updOf m) q hq hukeys d]
      exact not_matches_both d (filterQueryOf ident) q (by rw [hfqk, hq]) hne hd
  | none =>
    rw [stepMsg_notfound_store s m ident (updOf m) hdto hfind,
      find_one_append_one]
    cases hs : find_one s q with
    | some r => rfl
    | none =>
      have hD : matchesFilter
          (insertedDoc (filterQueryOf ident) (updOf m) m.nowR m.newId) q = false :=
        not_matches_both _ (filterQueryOf ident) q (by rw [hfqk, hq]) hne
          (decodesTo_inserted_matches m ident (updOf m) m.nowR m.newId hdto)
      simp [hD]

theorem step_same_find (s t : Store) (m : Msg) (ident : List (String × JVal))
    (hident : identOf m = some ident)
    (heq : find_one s (filterQueryOf ident) = find_one t (filterQueryOf ident)) :
    find_one (stepMsg s m) (filterQueryOf ident) =
      find_one (stepMsg t m) (filterQueryOf ident) := by
  have hdto := decodesTo_of_identOf m ident hident
  have hukeys := decodesTo_u_keys m ident _ hdto
  have hfqk := decodesTo_fq_keys m ident _ hdto
  have hpres := updateKeys_pres (updOf m) (filterQueryOf ident) hfqk hukeys
  cases hfind : find_one s (filterQueryOf ident) with
  | some r =>
    have hfindt : find_one t (filterQueryOf ident) = some r := by
      rw [← heq]
      exact hfind
    rw [stepMsg_found_store s m ident (updOf m) r hdto hfind,
      stepMsg_found_store t m ident (updOf m) r hdto hfindt]
    have hmat : matchesFilter (dsetAll r (updOf m)) (filterQueryOf ident) = true := by
      rw [hpres r]
      exact find_one_some_matches s _ r hfind
    rw [find_one_update_one s _ (updOf m) r hfind hmat,
      find_one_update_one t _ (updOf m) r hfindt hmat]
  | none =>
    have hfindt : find_one t (filterQueryOf ident) = none := by
      rw [← heq]
      exact hfind
    rw [stepMsg_notfound_store s m ident (updOf m) hdto hfind,
      stepMsg_notfound_store t m ident (updOf m) hdto hfindt,
      find_one_append_one, find_one_append_one, hfind, hfindt]

/-- Whether a message decodes to the given identity. -/
def isForIdent (i : List (String × JVal)) (m : Msg) : Bool :=
  decide (identOf m = some i)

theorem processMsgs_project (i1 : List (String × JVal))
    (hwf1 : i1.map Prod.fst = required_fields) :
    ∀ (ms : List Msg) (s t : Store),
      (∀ m ∈ ms, ∃ i, identOf m = some i) →
      find_one s (filterQueryOf i1) = find_one t (filterQueryOf i1) →
      find_one (processMsgs s ms) (filterQueryOf i1) =
        find_one (processMsgs t (ms.filter (isForIdent i1)))
          (filterQueryOf i1) := by
  intro ms
  induction ms with
  | nil => intro s t _ heq; exact heq
  | cons m ms1 ih =>
    intro s t hall heq
    obtain ⟨i, hi⟩ := hall m (List.mem_cons_self _ _)
    by_cases hii : i = i1
    · subst hii
      have htrue : isForIdent i m = true := by
        unfold isForIdent
        rw [hi]
        simp
      have hkeep : (m :: ms1).filter (isForIdent i) =
          m :: ms1.filter (isForIdent i) := by
        simp [List.filter_cons, htrue]
      rw [hkeep]
      show find_one (processMsgs (stepMsg s m) ms1) _ = _
      exact ih (stepMsg s m) (stepMsg t m)
        (fun m1 hm1 => hall m1 (List.mem_cons_of_mem _ hm1))
        (step_same_find s t m i hi heq)
    · have hfalse : isForIdent i1 m = false := by
        unfold isForIdent
        rw [hi]
        exact decide_eq_false (fun hh => hii (by injection hh))
      have hdrop : (m :: ms1).filter (isForIdent i1) =
          ms1.filter (isForIdent i1) := by
        simp [List.filter_cons, hfalse]
      rw [hdrop]
      show find_one (processMsgs (stepMsg s m) ms1) _ = _
      refine ih (stepMsg s m) t
        (fun m1 hm1 => hall m1 (List.mem_cons_of_mem _ hm1)) ?_
      rw [step_other_find s m (filterQueryOf i1)
        (by rw [dkeys_filterQueryOf]; exact hwf1) i hi
        (fun hh => hii (filterQueryOf_inj i i1 hh))]
      exact heq

/-- C6: messages for two identity tuples that differ anywhere (for example
only in session_id) never merge: each identity's record evolves exactly as
if only its own messages had been processed, and at most one record exists
per composite identity. -/
theorem composite_key_correlation (i1 i2 : List (String × JVal)) (ms : List Msg)
    (hwf1 : i1.map Prod.fst = required_fields)
    (hwf2 : i2.map Prod.fst = required_fields)
    (hne : ¬ i1 = i2)
    (hall : ∀ m ∈ ms, identOf m = some i1 ∨ identOf m = some i2) :
    find_one (processMsgs [] ms) (filterQueryOf i1) =
      find_one (processMsgs [] (ms.filter (isForIdent i1))) (filterQueryOf i1) ∧
    find_one (processMsgs [] ms) (filterQueryOf i2) =
      find_one (processMsgs [] (ms.filter (isForIdent i2))) (filterQueryOf i2) ∧
    countMatching (processMsgs [] ms) (filterQueryOf i1) ≤ 1 ∧
    countMatching (processMsgs [] ms) (filterQueryOf i2) ≤ 1 := by
  have hex : ∀ m ∈ ms, ∃ i, identOf m = some i := by
    intro m hm
    rcases hall m hm with h | h
    exacts [⟨i1, h⟩, ⟨i2, h⟩]
  exact ⟨processMsgs_project i1 hwf1 ms [] [] hex rfl,
    processMsgs_project i2 hwf2 ms [] [] hex rfl,
    processMsgs_count_le_one ms [] (fun q2 _ => by simp [countMatching]) _
      (by rw [dkeys_filterQueryOf]; exact hwf1),
    processMsgs_count_le_one ms [] (fun q2 _ => by simp [countMatching]) _
      (by rw [dkeys_filterQueryOf]; exact hwf2)⟩

/-- A second identity, differing from identW only in session_id. -/
def identW2 : List (String × JVal) :=
  [("session_id", JVal.prim (Prim.str "s2")),
   ("node_mac", JVal.prim (Prim.str "AA:BB:CC:DD:EE:FF")),
   ("node_location", JVal.prim (Prim.str "greenhouse")),
   ("node_type", JVal.prim (Prim.str "seedbed")),
   ("node_id", JVal.prim (Prim.str "1a")),
   ("node_codename", JVal.prim (Prim.str "node-one")),
   ("firmware_version", JVal.prim (Prim.str "1.0.0"))]

/-- A started message for the second identity. -/
def pStarted2 : Payload :=
  identW2 ++ [("message", JVal.prim (Prim.str "OTA Update Started"))]

/-- The second identity's started message as a pipeline message. -/
def msgStarted2 : Msg := ⟨false, RawMsg.obj pStarted2, 13, 14, 5⟩

/-- C6 (witness): one message per identity, the identities differing only
in session_id. -/
theorem composite_key_correlation_witness :
    find_one (processMsgs [] [msgStarted, msgStarted2]) (filterQueryOf identW) =
      find_one (processMsgs [] ([msgStarted, msgStarted2].filter (isForIdent identW)))
        (filterQueryOf identW) ∧
    find_one (processMsgs [] [msgStarted, msgStarted2]) (filterQueryOf identW2) =
      find_one (processMsgs [] ([msgStarted, msgStarted2].filter (isForIdent identW2)))
        (filterQueryOf identW2) ∧
    countMatching (processMsgs [] [msgStarted, msgStarted2])
      (filterQueryOf identW) ≤ 1 ∧
    countMatching (processMsgs [] [msgStarted, msgStarted2])
      (filterQueryOf identW2) ≤ 1 :=
  composite_key_correlation identW identW2 [msgStarted, msgStarted2]
    (by decide) (by decide) (by decide)
    (by
      intro m hm
      rcases List.mem_cons.mp hm with rfl | hm1
      · exact Or.inl (by decide)
      rcases List.mem_cons.mp hm1 with rfl | hm2
      · exact Or.inr (by decide)
      · cases hm2)

/-! ### Progress fields and null clearing -/

theorem step_preserves_nonnull (q : Doc) (hq : dkeys q = required_fields)
    (s : Store) (m : Msg) (r : Doc) (k : String) (v : DVal)
    (hnn : ∀ kv ∈ updOf m, ¬ kv.2 = DVal.null)
    (hfind : find_one s q = some r) (hget : dget r k = some v)
    (hv : ¬ v = DVal.null) :
    ∃ r1 v1, find_one (stepMsg s m) q = some r1 ∧
      dget r1 k = some v1 ∧ ¬ v1 = DVal.null := by
  cases hident : identOf m with
  | none =>
    rw [stepMsg_rejected s m hident]
    exact ⟨r, v, hfind, hget, hv⟩
  | some ident =>
    have hdto := decodesTo_of_identOf m ident hident
    have hukeys := decodesTo_u_keys m ident _ hdto
    cases hfind2 : find_one s (filterQueryOf ident) with
    | none =>
      rw [stepMsg_notfound_store s m ident (updOf m) hdto hfind2,
        find_one_append_one, hfind]
      exact ⟨r, v, rfl, hget, hv⟩
    | some r2 =>
      rw [stepMsg_found_store s m ident (updOf m) r2 hdto hfind2]
      have hpres := updateKeys_pres (updOf m) q hq hukeys
      rcases find_one_update_one_frame s q (filterQueryOf ident) (updOf m) r
        hfind hpres with hcase | hcase
      · exact ⟨r, v, hcase, hget, hv⟩
      · cases hL : dgetLast (updOf m) k with
        | some w =>
          exact ⟨dsetAll r (updOf m), w, hcase, dget_dsetAll_some r _ k w hL,
            hnn (k, w) (dgetLast_mem _ k w hL)⟩
        | none =>
          exact ⟨dsetAll r (updOf m), v, hcase,
            by rw [dget_dsetAll_none r _ k hL]; exact hget, hv⟩

/-- C7 (amended): over any processed message sequence whose decoded update
field-sets carry no null values (in particular the three server-timestamp
kinds always qualify), a record field holding a non-null value never
becomes null; but a recognized numeric-payload message whose data value is
missing writes an explicit null over the field. -/
theorem progress_fields_never_cleared_nonnull (q : Doc)
    (hq : dkeys q = required_fields) :
    ∀ (ms : List Msg) (s : Store) (r : Doc) (k : String) (v : DVal),
      (∀ m ∈ ms, ∀ kv ∈ updOf m, ¬ kv.2 = DVal.null) →
      find_one s q = some r → dget r k = some v → ¬ v = DVal.null →
      ∃ r1 v1, find_one (processMsgs s ms) q = some r1 ∧
        dget r1 k = some v1 ∧ ¬ v1 = DVal.null := by
  intro ms
  induction ms with
  | nil => intro s r k v _ hfind hget hv; exact ⟨r, v, hfind, hget, hv⟩
  | cons m ms1 ih =>
    intro s r k v hnn hfind hget hv
    obtain ⟨r1, v1, h1, h2, h3⟩ := step_preserves_nonnull q hq s m r k v
      (hnn m (List.mem_cons_self _ _)) hfind hget hv
    exact ih (stepMsg s m) r1 k v1
      (fun m1 hm1 => hnn m1 (List.mem_cons_of_mem _ hm1)) h1 h2 h3

/-- C7 (counterexample): a "Firmware size OK" message sets
firmware_size_kb to 1024, and a later recognized "Firmware size OK"
message carrying no data object writes an explicit null over it -- a
progress field is cleared after having been set. -/
theorem progress_field_cleared_cex :
    (find_one (processMsgs [] [msgSizeOk]) (filterQueryOf identW)).map
        (fun r => dget r "firmware_size_kb") =
      some (some (DVal.jv (JVal.prim (Prim.num 1024)))) ∧
    (find_one (processMsgs [] [msgSizeOk, msgSizeOkNoData])
        (filterQueryOf identW)).map
        (fun r => dget r "firmware_size_kb") =
      some (some DVal.null) := by decide

/-- A record for the concrete identity whose firmware_size_kb is set. -/
def rSize : Doc := insertedDoc (filterQueryOf identW) uSizeOk 8 2

/-- C7 (witness, for the amended statement): a started message, whose
update values are all non-null, leaves the set firmware_size_kb non-null. -/
theorem progress_fields_never_cleared_nonnull_witness :
    ∃ r1 v1, find_one (processMsgs [rSize] [msgStarted]) (filterQueryOf identW) =
        some r1 ∧
      dget r1 "firmware_size_kb" = some v1 ∧ ¬ v1 = DVal.null :=
  progress_fields_never_cleared_nonnull (filterQueryOf identW) (by decide)
    [msgStarted] [rSize] rSize "firmware_size_kb"
    (DVal.jv (JVal.prim (Prim.num 1024)))
    (by decide) (by decide) (by decide) (by decide)

/-! ### Upsert under store failure -/

/-- Which of the (at most three) store calls of LogRepository.upsert_log
raises: the lookup, the write (update_one or insert_one), or the re-read
after an update. -/
structure FailPlan where
  failFind : Bool
  failWrite : Bool
  failReread : Bool
deriving DecidableEq

/-- The outcome of one upsert attempt: the store afterwards, the value
returned to the service (none models the caught-exception return None),
how many write operations were attempted, and whether an exception was
raised (and caught) inside the try block. -/
structure UpsertRun where
  store : Store
  result : Option Doc
  writeAttempts : Nat
  raised : Bool
deriving DecidableEq

/-- LogRepository.upsert_log with an exception plan for its store calls.
Every raise lands in the enclosing `except Exception` which logs and
returns None; a failed write leaves the store unchanged, a failed re-read
leaves the already-applied update in place (no rollback).  A run whose
store calls all succeed still passes the read-back document through
LogModel validation (logModelOf), exactly as upsert_log does. -/
def upsert_logF (fp : FailPlan) (s : Store) (filter_query update_fields : Doc)
    (now_repo : Nat) (new_id : Nat) : UpsertRun :=
  if fp.failFind then ⟨s, none, 0, true⟩
  else
    match find_one s filter_query with
    | some _ =>
        if fp.failWrite then ⟨s, none, 1, true⟩
        else
          let s1 := update_one s filter_query update_fields
          if fp.failReread then ⟨s1, none, 1, true⟩
          else ⟨s1, logModelOf (find_one s1 filter_query), 1, false⟩
    | none =>
        if fp.failWrite then ⟨s, none, 1, true⟩
        else
          ⟨insert_one s (insertedDoc filter_query update_fields now_repo new_id),
           logModelOf (some (insertedDoc filter_query update_fields now_repo new_id)),
           1, false⟩

/-- C9: whenever any executed store call of an upsert raises, the failure
is caught inside the engine and surfaces to the caller as None; at most
one write is ever attempted per received message (no retry); and a run
with no failure agrees with the ordinary upsert.  upsert_logF is a total
function, so no exception crosses the dispatcher-visible API. -/
theorem upsert_failure_caught (fp : FailPlan) (s : Store) (fq u : Doc)
    (nr id : Nat) :
    ((upsert_logF fp s fq u nr id).raised = true →
      (upsert_logF fp s fq u nr id).result = none) ∧
    (upsert_logF fp s fq u nr id).writeAttempts ≤ 1 ∧
    ((upsert_logF fp s fq u nr id).raised = false →
      ((upsert_logF fp s fq u nr id).store,
       (upsert_logF fp s fq u nr id).result) = upsert_log s fq u nr id) := by
  unfold upsert_logF
  by_cases h1 : fp.failFind = true
  · simp [h1]
  · simp only [h1, Bool.false_eq_true, if_false]
    cases hf : find_one s fq with
    | some r =>
      by_cases h2 : fp.failWrite = true
      · simp [h2]
      · by_cases h3 : fp.failReread = true
        · simp [h2, h3]
        · simp [h2, h3, upsert_log_found s fq u nr id r hf]
    | none =>
      by_cases h2 : fp.failWrite = true
      · simp [h2]
      · simp [h2, upsert_log_notfound s fq u nr id hf, insert_one]

/-- C9 (witness): a raising lookup surfaces as None with no retry. -/
theorem upsert_failure_caught_witness :
    (upsert_logF ⟨true, false, false⟩ [] (filterQueryOf identW)
      uStarted5 6 1).result = none ∧
    (upsert_logF ⟨true, false, false⟩ [] (filterQueryOf identW)
      uStarted5 6 1).writeAttempts ≤ 1 :=
  ⟨(upsert_failure_caught ⟨true, false, false⟩ [] (filterQueryOf identW)
      uStarted5 6 1).1 rfl,
   (upsert_failure_caught ⟨true, false, false⟩ [] (filterQueryOf identW)
      uStarted5 6 1).2.1⟩

end LokaSync
